import Mathlib

/-!
# vio: the CSV geolocation importer (`import.go`)

A shallow embedding of `Importer.loadRecord`, `isCountryCode` and
`Importer.Stream` of `import.go`, and theorems about them.

Modelling conventions.

* A Go `string` is a Lean `String` (a field of valid UTF-8 text); `len(s)` is the
  number of bytes of its UTF-8 encoding (`String.utf8ByteSize`) and
  `for _, c := range s` visits its code points (`String.toList`).
* A Go `[]string` is a `Slice`: a backing array and a length. The in-place
  `append(record[:pos], record[pos+k:]...)` is `Slice.cut`, which fails exactly
  when one of the two slice expressions is out of range (a run-time panic).
* The standard-library functions the program calls (`net.ParseIP`,
  `strconv.ParseFloat`, `unicode.IsUpper`) are a parameter, `Lib`.
* `Geolocation.UpdatedAt` and `ImportStats.TimeElapsed` (wall-clock values the
  importer never reads) and the logger are left out.
* The counters are Go `int`s; they are modelled as `Nat` (a run would need 2^63
  rows to overflow one).
-/

namespace Vio

/-! ## The standard library, as far as the program observes it -/

/-- A value of Go's `float64`, as far as a comparison with a constant observes it:
not-a-number, an infinity, or a finite number. -/
inductive Float64 where
  | nan
  | inf (negative : Bool)
  | fin (q : ℚ)

/-- Go's `x < y` on `float64` (IEEE 754: a comparison with NaN is false). -/
def Float64.lt : Float64 → Float64 → Bool
  | .nan, _ => false
  | _, .nan => false
  | .inf true, .inf true => false
  | .inf true, _ => true
  | _, .inf true => false
  | .inf false, _ => false
  | _, .inf false => true
  | .fin a, .fin b => decide (a < b)

/-- The standard-library functions that `import.go` calls.

* `ParseIP s` is `net.ParseIP(s)`: `none` for a nil result, otherwise the bytes
  of the address (always the 16-byte form).
* `ParseFloat s` is `strconv.ParseFloat(s, 64)`: `none` when `err != nil`.
* `IsUpper c` is `unicode.IsUpper(c)`. -/
structure Lib where
  ParseIP : String → Option (List Nat)
  ParseIP_len : ∀ s ip, ParseIP s = some ip → ip.length = 16
  ParseFloat : String → Option Float64
  IsUpper : Char → Bool

/-! ## Data model -/

/-- The struct `Geolocation` of `geolocation.go` (without `UpdatedAt`).
`IPAddress` is a `net.IP`, a byte slice: the nil slice is `[]`. -/
structure Geolocation where
  IPAddress : List Nat := []
  CountryCode : String := ""
  Country : String := ""
  City : String := ""
  Latitude : String := ""
  Longitude : String := ""
  deriving DecidableEq, Repr

/-- A Go slice of strings: the backing array (its length is the capacity) and
the length of the slice. -/
structure Slice where
  arr : List String
  len : Nat
  deriving DecidableEq, Repr

/-- The slice a row of fields arrives in. -/
def Slice.ofList (l : List String) : Slice := ⟨l, l.length⟩

/-- The elements of the slice, `s[0], ..., s[len(s)-1]`. -/
def Slice.toList (s : Slice) : List String := s.arr.take s.len

/-- The index expression `s[i]`: `none` is the run-time panic for `i ≥ len(s)`. -/
def Slice.index (s : Slice) (i : Nat) : Option String :=
  if i < s.len then s.arr[i]? else none

/-- The expression `append(s[:pos], s[pos+k:]...)`. `s[:pos]` needs `pos ≤ cap(s)`
and `s[pos+k:]` needs `pos + k ≤ len(s)`; otherwise the program panics (`none`).
The result has length `len(s) - k ≤ cap(s)`, so `append` writes into the same
backing array: the elements from `pos + k` on move down by `k`, and the last `k`
cells of the old slice keep their old content. -/
def Slice.cut (s : Slice) (pos k : Nat) : Option Slice :=
  if pos ≤ s.arr.length ∧ pos + k ≤ s.len then
    some ⟨s.arr.take pos ++ (s.arr.take s.len).drop (pos + k) ++ s.arr.drop (s.len - k),
          s.len - k⟩
  else none

/-! ## `isCountryCode` and `loadRecord` -/

/-- The function `isCountryCode` of `import.go`. -/
def isCountryCode (lib : Lib) (code : String) : Bool :=
  if code.utf8ByteSize ≠ 2 then false
  else code.toList.all lib.IsUpper

/-- The test `err != nil || record[pos] == "0" || lat < -90 || lat > 90`
on the text `a` of `record[pos]`. -/
def latRejected (lib : Lib) (a : String) : Bool :=
  match lib.ParseFloat a with
  | none => true
  | some lat => decide (a = "0") || lat.lt (.fin (-90)) || Float64.lt (.fin 90) lat

/-- The test `err != nil || record[pos+1] == "0" || lon < -180 || lon > 180`
on the text `b` of `record[pos+1]`. -/
def lonRejected (lib : Lib) (b : String) : Bool :=
  match lib.ParseFloat b with
  | none => true
  | some lon => decide (b = "0") || lon.lt (.fin (-180)) || Float64.lt (.fin 180) lon

/-- The first loop of `loadRecord`, `for pos, v := range record`, with `k`
iterations left, the next one at index `pos`. The range expression is evaluated
once, so the loop runs over the original length and reads `v` from the backing
array, which `record` keeps sharing; there is no `break`. -/
def ipLoop (lib : Lib) : Nat → Nat → Slice → Geolocation → Option (Slice × Geolocation)
  | 0, _, record, loc => some (record, loc)
  | k + 1, pos, record, loc =>
    match lib.ParseIP (record.arr.getD pos "") with
    | some ip =>
      match record.cut pos 1 with
      | some record' => ipLoop lib k (pos + 1) record' { loc with IPAddress := ip }
      | none => none
    | none => ipLoop lib k (pos + 1) record loc

/-- The second loop of `loadRecord`, `for pos := 0; pos < len(record)-1; pos++`,
with `k` iterations left. `record` is only reassigned right before `break`. -/
def coordLoop (lib : Lib) (record : Slice) (loc : Geolocation) :
    Nat → Nat → Option (Slice × Geolocation)
  | 0, _ => some (record, loc)
  | k + 1, pos =>
    match record.index pos with
    | none => none
    | some a =>
      if latRejected lib a then coordLoop lib record loc k (pos + 1)
      else
        match record.index (pos + 1) with
        | none => none
        | some b =>
          if lonRejected lib b then coordLoop lib record loc k (pos + 1)
          else
            match record.cut pos 2 with
            | some record' => some (record', { loc with Latitude := a, Longitude := b })
            | none => none

/-- The third loop of `loadRecord`, `for pos, v := range record`, with `k`
iterations left; it breaks at the first country code. -/
def ccLoop (lib : Lib) (record : Slice) (loc : Geolocation) :
    Nat → Nat → Option (Slice × Geolocation)
  | 0, _ => some (record, loc)
  | k + 1, pos =>
    match record.index pos with
    | none => none
    | some c =>
      if isCountryCode lib c then
        match record.cut pos 1 with
        | some record' => some (record', { loc with CountryCode := record.arr.getD pos "" })
        | none => none
      else ccLoop lib record loc k (pos + 1)

/-- The assignments `loc.Country = record[0]` and `loc.City = record[1]`, each
under its length test. -/
def countryCity (record : Slice) (loc : Geolocation) : Option Geolocation :=
  match (if record.len ≥ 1 then (record.index 0).map (fun c => { loc with Country := c })
         else some loc) with
  | none => none
  | some loc1 =>
    if record.len ≥ 2 then (record.index 1).map (fun c => { loc1 with City := c })
    else some loc1

/-- What a call of `loadRecord` does: it panics, or it returns an error or nil;
`loc` is what it has left in `*loc`. -/
inductive LoadResult where
  | panic
  | error (msg : String) (loc : Geolocation)
  | ok (loc : Geolocation)
  deriving DecidableEq, Repr

/-- The test that ends `loadRecord`: no useful value was found. -/
def noUsefulData (loc : Geolocation) : Bool :=
  decide (loc.City = "") && decide (loc.Country = "") && decide (loc.CountryCode = "") &&
    decide (loc.Latitude = "") && decide (loc.Longitude = "")

/-- The steps of `loadRecord` after the IP address was found: coordinates, country
code, country and city. -/
def afterIP (lib : Lib) (record : Slice) (loc : Geolocation) : Option Geolocation :=
  match (if record.len ≥ 2 then coordLoop lib record loc (record.len - 1) 0
         else some (record, loc)) with
  | none => none
  | some (record1, loc1) =>
    match ccLoop lib record1 loc1 record1.len 0 with
    | none => none
    | some (record2, loc2) => countryCity record2 loc2

/-- The method `Importer.loadRecord` of `import.go`. -/
def loadRecord (lib : Lib) (record : Slice) (loc : Geolocation) : LoadResult :=
  match ipLoop lib record.len 0 record loc with
  | none => .panic
  | some (record1, loc1) =>
    if loc1.IPAddress.length = 0 then .error "no valid IP address found" loc1
    else
      match afterIP lib record1 loc1 with
      | none => .panic
      | some loc2 =>
        if noUsefulData loc2 then .error "no useful data found" loc2
        else .ok loc2

/-! ## The loops of `loadRecord`, on the list of fields of the slice -/

/-- A slice is well formed when its length is within its capacity. -/
def Slice.WF (s : Slice) : Prop := s.len ≤ s.arr.length

/-- The first adjacent pair of fields that passes both coordinate tests, and the
other fields in their order. -/
def splitCoordinates (lib : Lib) : List String → Option (String × String × List String)
  | a :: b :: rest =>
    if !latRejected lib a && !lonRejected lib b then some (a, b, rest)
    else (splitCoordinates lib (b :: rest)).map fun x => (x.1, x.2.1, a :: x.2.2)
  | _ => none

/-- The first field that `isCountryCode` accepts, and the other fields in their
order. -/
def splitCountryCode (lib : Lib) : List String → Option (String × List String)
  | [] => none
  | c :: rest =>
    if isCountryCode lib c then some (c, rest)
    else (splitCountryCode lib rest).map fun x => (x.1, c :: x.2)

/-- What the steps after the first loop leave in `loc`, as a function of the list
of fields that loop has left: the coordinates, the country code, the country and the
city. -/
def fillRest (lib : Lib) (fields : List String) (loc : Geolocation) : Geolocation :=
  let c := splitCoordinates lib fields
  let fields1 := match c with
    | some x => x.2.2
    | none => fields
  let loc1 := match c with
    | some x => { loc with Latitude := x.1, Longitude := x.2.1 }
    | none => loc
  let d := splitCountryCode lib fields1
  let fields2 := match d with
    | some x => x.2
    | none => fields1
  let loc2 := match d with
    | some x => { loc1 with CountryCode := x.1 }
    | none => loc1
  match fields2 with
  | [] => loc2
  | [c] => { loc2 with Country := c }
  | c :: d :: _ => { loc2 with Country := c, City := d }

/-! ## A concrete library, to run the program on concrete rows -/

/-- The pieces of a text between its dots. -/
def splitDots : List Char → List (List Char)
  | [] => [[]]
  | c :: cs =>
    if c = '.' then [] :: splitDots cs
    else
      match splitDots cs with
      | [] => [[c]]
      | p :: ps => (c :: p) :: ps

/-- The number a list of decimal digits denotes. -/
def digitsValue (cs : List Char) : Nat :=
  cs.foldl (fun n c => 10 * n + (c.toNat - 48)) 0

/-- One field of a dotted-decimal IPv4 address: one to three digits, no leading
zero, at most 255. -/
def octet (cs : List Char) : Option Nat :=
  if cs.isEmpty || decide (cs.length > 3) || !cs.all Char.isDigit
      || (decide (cs.length > 1) && cs.head? == some '0') then none
  else if digitsValue cs ≤ 255 then some (digitsValue cs) else none

/-- The dotted-decimal IPv4 literals, in the 16-byte form `net.ParseIP` returns. -/
def sampleParseIP (s : String) : Option (List Nat) :=
  match (splitDots s.toList).map octet with
  | [some a, some b, some c, some d] => some [0, 0, 0, 0, 0, 0, 0, 0, 0, 0, 255, 255, a, b, c, d]
  | _ => none

/-- The literals `NaN` (in any case) and the plain decimals: an optional sign,
digits, an optional point and digits. A finite result carries the decimal's value. -/
def sampleParseFloat (s : String) : Option Float64 :=
  if s.toList.map Char.toLower = ['n', 'a', 'n'] then some .nan
  else
    let (neg, body) : Bool × List Char :=
      match s.toList with
      | '-' :: cs => (true, cs)
      | '+' :: cs => (false, cs)
      | cs => (false, cs)
    match splitDots body with
    | [ip] =>
      if !ip.isEmpty && ip.all Char.isDigit then
        some (.fin (mkRat (if neg then -(digitsValue ip : Int) else digitsValue ip) 1))
      else none
    | [ip, fp] =>
      if !(ip ++ fp).isEmpty && (ip ++ fp).all Char.isDigit then
        some (.fin (mkRat (if neg then -(digitsValue (ip ++ fp) : Int) else digitsValue (ip ++ fp))
          (10 ^ fp.length)))
      else none
    | _ => none

/-- The upper-case letters of Latin-1: `A`-`Z`, `À`-`Ö` and `Ø`-`Þ`. -/
def sampleIsUpper (c : Char) : Bool :=
  (decide (65 ≤ c.toNat) && decide (c.toNat ≤ 90)) ||
  (decide (192 ≤ c.toNat) && decide (c.toNat ≤ 214)) ||
  (decide (216 ≤ c.toNat) && decide (c.toNat ≤ 222))

/-- A concrete instance of `Lib`. It agrees with the Go functions on the texts it
recognises: IPv4 dotted-decimal addresses, `NaN`, plain decimals (up to the
rounding of `float64`, which does not move a value across ±90 or ±180 unless it is
within one rounding step of the bound) and the Latin-1 letters. It recognises
nothing else (no IPv6 literal, no exponent, no letter beyond Latin-1). -/
def sampleLib : Lib where
  ParseIP := sampleParseIP
  ParseIP_len := by
    intro s ip h
    unfold sampleParseIP at h
    split at h
    · cases h; rfl
    · cases h
  ParseFloat := sampleParseFloat
  IsUpper := sampleIsUpper

/-! ## `Importer.Stream` -/

/-- The errors `stream.Read` returns, as far as the loop can tell them apart:
`io.EOF`, the value `csv.ErrFieldCount` itself, a `*csv.ParseError` (which is what
`encoding/csv` reports a wrong field count with, `fieldCount = true`, as well as
every other malformed row), and any other error. -/
inductive ReadErr where
  | EOF
  | ErrFieldCount
  | ParseError (fieldCount : Bool)
  | other
  deriving DecidableEq, Repr

/-- What one call of `stream.Read` returns: `record, err`. -/
structure ReadResult where
  record : List String
  err : Option ReadErr
  deriving DecidableEq, Repr

/-- The end of the input: `nil, io.EOF`. -/
def ReadResult.eof : ReadResult := ⟨[], some .EOF⟩

/-- What a run of `Stream` interacts with, call by call.

* `ctxErr k` is `ctx.Err() != nil` at the top of the loop iteration number `k`
  (counted from 0).
* `Read k` is what the call number `k` (from 0) of `stream.Read` returns.
* `Close n batch` is what `results.Close()` returns for the batch number `n`
  (from 1) sent with `SendBatch`: the sink's error, or `none` for nil. -/
structure World where
  ctxErr : Nat → Bool
  Read : Nat → ReadResult
  Close : Nat → List Geolocation → Option String

/-- The struct `Importer`, down to the field the loop reads. -/
structure Importer where
  batchSize : Int

/-- The struct `ImportStats` (without `TimeElapsed`). -/
structure ImportStats where
  Accepted : Nat := 0
  Discarded : Nat := 0
  deriving DecidableEq, Repr

/-- The errors `Stream` returns: `ctx.Err()` itself, or
`fmt.Errorf("batch %d error: %w", batchNumber, err)`. -/
inductive StreamError where
  | ctx
  | batch (batchNumber : Nat) (cause : String)
  deriving DecidableEq, Repr

/-- The local variables of `Stream`: `stats`, `batch` (the queued records, in
order), `batchNumber` and `total`; `iter` counts the loop iterations begun, which
is also the number of `stream.Read` calls made, and `sent` lists the batches passed
to `SendBatch`, in call order. -/
structure Run where
  stats : ImportStats := {}
  batch : List Geolocation := []
  batchNumber : Nat := 0
  total : Nat := 0
  iter : Nat := 0
  sent : List (List Geolocation) := []
  deriving DecidableEq, Repr

/-- How a run of `Stream` ends: `loadRecord` panicked, the model ran out of
fuel, or `Stream` returned `&stats` (the `stats` of `run`) and `err`. -/
inductive StreamResult where
  | panic (run : Run)
  | outOfFuel (run : Run)
  | returned (run : Run) (err : Option StreamError)
  deriving DecidableEq, Repr

/-- The four statements `batchNumber++; total += batch.Len();
results := i.db.SendBatch(ctx, &batch); err := results.Close()`. -/
def flush (w : World) (run : Run) : Run × Option String :=
  let run1 := { run with batchNumber := run.batchNumber + 1 }
  let run2 := { run1 with total := run1.total + run1.batch.length }
  let run3 := { run2 with sent := run2.sent ++ [run2.batch] }
  (run3, w.Close run3.batchNumber run3.batch)

/-- One pass through the body of the `for` loop: the run ends, or the loop goes
on with new values of the local variables. -/
inductive Step where
  | stop (result : StreamResult)
  | leave (run : Run)
  | next (run : Run)

/-- The body of the `for` loop of `Stream`; `leave` is its `break`. -/
def iteration (lib : Lib) (i : Importer) (w : World) (run : Run) : Step :=
  if w.ctxErr run.iter then .stop (.returned run (some .ctx))
  else
    let r := w.Read run.iter
    let run := { run with iter := run.iter + 1 }
    if r.err = some .EOF then .leave run
    else if r.err ≠ none ∧ r.err ≠ some .ErrFieldCount then
      .next { run with stats := { run.stats with Discarded := run.stats.Discarded + 1 } }
    else
      match loadRecord lib (Slice.ofList r.record) {} with
      | .panic => .stop (.panic run)
      | .error _ _ =>
        .next { run with stats := { run.stats with Discarded := run.stats.Discarded + 1 } }
      | .ok loc =>
        let run := { run with batch := run.batch ++ [loc] }
        if (run.batch.length : Int) = i.batchSize then
          match flush w run with
          | (run1, some e) => .stop (.returned run1 (some (.batch run1.batchNumber e)))
          | (run1, none) =>
            let run2 := { run1 with batch := [] }
            .next { run2 with stats := { run2.stats with Accepted := run2.stats.Accepted + 1 } }
        else
          .next { run with stats := { run.stats with Accepted := run.stats.Accepted + 1 } }

/-- The statements of `Stream` after the loop. -/
def afterLoop (w : World) (run : Run) : StreamResult :=
  if run.batch.length > 0 then
    match flush w run with
    | (run1, some e) => .returned run1 (some (.batch run1.batchNumber e))
    | (run1, none) => .returned run1 none
  else .returned run none

/-- The `for` loop of `Stream` and what follows it, with `fuel` bounding the
number of iterations. -/
def streamLoop (lib : Lib) (i : Importer) (w : World) : Nat → Run → StreamResult
  | 0, run => .outOfFuel run
  | fuel + 1, run =>
    match iteration lib i w run with
    | .stop result => result
    | .leave run1 => afterLoop w run1
    | .next run1 => streamLoop lib i w fuel run1

/-- The method `Importer.Stream` of `import.go`. -/
def Stream (lib : Lib) (i : Importer) (w : World) (fuel : Nat) : StreamResult :=
  streamLoop lib i w fuel {}

/-- The world of a run that is never cancelled, reads `rows` and then the end of
the input, and whose sink never fails. -/
def World.ofRows (rows : List ReadResult) : World where
  ctxErr := fun _ => false
  Read := fun k => (rows[k]?).getD ReadResult.eof
  Close := fun _ _ => none

/-- The record a row yields: the row decoded (`err == nil`) and `loadRecord`
returned nil. -/
def classified (lib : Lib) (r : ReadResult) : Option Geolocation :=
  if r.err = none then
    match loadRecord lib (Slice.ofList r.record) {} with
    | .ok loc => some loc
    | _ => none
  else none

/-- The row failed to decode (`err != nil`) or `loadRecord` returned an error. -/
def rejected (lib : Lib) (r : ReadResult) : Bool :=
  if r.err = none then
    match loadRecord lib (Slice.ofList r.record) {} with
    | .error _ _ => true
    | _ => false
  else true

/-- The records of the rows that decoded and classified, in input order. -/
def accepted (lib : Lib) (rows : List ReadResult) : List Geolocation :=
  rows.filterMap (classified lib)

/-- A row with the fields `fields`, read without error. -/
def row (fields : List String) : ReadResult := ⟨fields, none⟩

/-- What a stretch of the loop that accepts the records `acc` and discards `disc`
rows does to the local variables, for the batch size `c`: the counters grow by as
much, the pending batch stays shorter than `c`, and the batches sent in between
are full ones that, with the pending batch, continue the old pending batch with
`acc`. -/
def Advances (c : Nat) (run run1 : Run) (acc : List Geolocation) (disc : Nat) : Prop :=
  run1.stats.Accepted = run.stats.Accepted + acc.length ∧
  run1.stats.Discarded = run.stats.Discarded + disc ∧
  run1.batch.length < c ∧
  ∃ full, run1.sent = run.sent ++ full ∧ (∀ b ∈ full, b.length = c) ∧
    full.flatten ++ run1.batch = run.batch ++ acc

/-- Eleven rows that all classify, for the example of the specification. -/
def elevenRows : List ReadResult :=
  [row ["10.0.0.1", "PT"], row ["10.0.0.2", "BR"], row ["10.0.0.3", "TL"],
   row ["10.0.0.4", "PT"], row ["10.0.0.5", "BR"], row ["10.0.0.6", "TL"],
   row ["10.0.0.7", "PT"], row ["10.0.0.8", "BR"], row ["10.0.0.9", "TL"],
   row ["10.0.0.10", "PT"], row ["10.0.0.11", "BR"]]

/-- Eleven reads of which seven classify, as `encoding/csv` returns them for an
input whose first row has two fields: the rows read without error have two fields
each; one row has three fields and one is malformed, and both come with a
`*csv.ParseError`; one row has no IP address and one has nothing but an IP
address. -/
def mixedRows : List ReadResult :=
  [row ["1.2.3.4", "PT"],
   row ["Lisbon", "PT"],
   ⟨["5.6.7.8", "PT", "Lisbon"], some (.ParseError true)⟩,
   row ["10.0.0.1", "BR"],
   row ["10.0.0.2", ""],
   ⟨[], some (.ParseError false)⟩,
   row ["10.0.0.3", "TL"], row ["10.0.0.4", "PT"], row ["10.0.0.5", "BR"],
   row ["10.0.0.6", "TL"], row ["10.0.0.7", "PT"]]

/-- Ten rows that all classify. -/
def tenRows : List ReadResult :=
  [row ["10.0.0.1", "PT"], row ["10.0.0.2", "BR"], row ["10.0.0.3", "TL"],
   row ["10.0.0.4", "PT"], row ["10.0.0.5", "BR"], row ["10.0.0.6", "TL"],
   row ["10.0.0.7", "PT"], row ["10.0.0.8", "BR"], row ["10.0.0.9", "TL"],
   row ["10.0.0.10", "PT"]]

/-- The world of a run that reads `rows` and then the end of the input, whose
context is found cancelled from the loop iteration number `k` on, and whose sink
never fails. -/
def World.cancelledAt (rows : List ReadResult) (k : Nat) : World where
  ctxErr := fun j => decide (k ≤ j)
  Read := fun j => (rows[j]?).getD ReadResult.eof
  Close := fun _ _ => none

/-- The world of a run that is never cancelled, reads `rows` and then the end of
the input, and whose sink refuses the batch number `k` with the error `e` and takes
every other batch. -/
def World.refusing (rows : List ReadResult) (k : Nat) (e : String) : World where
  ctxErr := fun _ => false
  Read := fun j => (rows[j]?).getD ReadResult.eof
  Close := fun n _ => if n = k then some e else none

/-- The world of a run that is never cancelled and whose reader returns the same
error, which is not `io.EOF`, at every call. -/
def World.brokenReader : World where
  ctxErr := fun _ => false
  Read := fun _ => ⟨[], some .other⟩
  Close := fun _ _ => none

/-- The reads of an input of three lines, as `encoding/csv` returns them: the row
`1.2.3.4,PT`, which sets the field count to two; a row that is malformed by a
double quote inside an unquoted field (the letter a, a double quote, the letter b),
for which `Read` returns the fields read before the error (none) and a
`*csv.ParseError` that holds `csv.ErrBareQuote`; and the row `10.0.0.3,TL`, of two
fields. -/
def decodeErrorRows : List ReadResult :=
  [row ["1.2.3.4", "PT"], ⟨[], some (.ParseError false)⟩, row ["10.0.0.3", "TL"]]

/-- Three rows of two fields each; the two fields of the second row both parse as
IP addresses. -/
def panicRows : List ReadResult :=
  [row ["10.0.0.1", "PT"], row ["1.2.3.4", "5.6.7.8"], row ["10.0.0.3", "TL"]]

/-! ## The classifier of the specification, on an immutable sequence of fields -/

/-- What a classification yields, for the comparison of `loadRecord` with the
specification: one of the two failures, or a record. -/
inductive Outcome where
  | noValidIP
  | noUsefulData
  | record (loc : Geolocation)
  deriving DecidableEq, Repr

/-- What the caller of `loadRecord` observes: nothing when it panics, the failure
its error names, or the record. -/
def LoadResult.outcome : LoadResult → Option Outcome
  | .panic => none
  | .error msg _ => if msg = "no valid IP address found" then some .noValidIP
                    else some .noUsefulData
  | .ok loc => some (.record loc)

/-- Step 1 of the specification: the first field that parses as an IP literal, and
the fields without it. -/
def Spec.removeIP (lib : Lib) : List String → Option (List Nat × List String)
  | [] => none
  | f :: rest =>
    match lib.ParseIP f with
    | some ip => some (ip, rest)
    | none => (Spec.removeIP lib rest).map fun x => (x.1, f :: x.2)

/-- The latitude of step 2: the text parses as a real number in [-90, 90] and is
not the literal text `0`. -/
def Spec.isLatitude (lib : Lib) (a : String) : Bool :=
  match lib.ParseFloat a with
  | some (.fin q) => decide (-90 ≤ q) && decide (q ≤ 90) && decide (a ≠ "0")
  | _ => false

/-- The longitude of step 2: the text parses as a real number in [-180, 180] and is
not the literal text `0`. -/
def Spec.isLongitude (lib : Lib) (b : String) : Bool :=
  match lib.ParseFloat b with
  | some (.fin q) => decide (-180 ≤ q) && decide (q ≤ 180) && decide (b ≠ "0")
  | _ => false

/-- Step 2 of the specification: the first adjacent pair of a latitude and a
longitude, and the fields without the two. -/
def Spec.removeCoordinates (lib : Lib) :
    List String → Option (String × String × List String)
  | a :: b :: rest =>
    if Spec.isLatitude lib a && Spec.isLongitude lib b then some (a, b, rest)
    else (Spec.removeCoordinates lib (b :: rest)).map fun x => (x.1, x.2.1, a :: x.2.2)
  | _ => none

/-- The shape of step 3: exactly two letters, both upper-case. -/
def Spec.isCode (lib : Lib) (s : String) : Bool :=
  decide (s.length = 2) && s.toList.all lib.IsUpper

/-- Step 3 of the specification: the first field of the shape of a country code,
and the fields without it. -/
def Spec.removeCode (lib : Lib) : List String → Option (String × List String)
  | [] => none
  | c :: rest =>
    if Spec.isCode lib c then some (c, rest)
    else (Spec.removeCode lib rest).map fun x => (x.1, c :: x.2)

/-- The classifier of the specification, steps 1 to 6, on an immutable sequence. -/
def Spec.classify (lib : Lib) (fields : List String) : Outcome :=
  match Spec.removeIP lib fields with
  | none => .noValidIP
  | some (ip, rest) =>
    let coordinates := Spec.removeCoordinates lib rest
    let rest1 := match coordinates with
      | some x => x.2.2
      | none => rest
    let code := Spec.removeCode lib rest1
    let rest2 := match code with
      | some x => x.2
      | none => rest1
    let loc : Geolocation :=
      { IPAddress := ip
        CountryCode := match code with
          | some x => x.1
          | none => ""
        Country := rest2.getD 0 ""
        City := rest2.getD 1 ""
        Latitude := match coordinates with
          | some x => x.1
          | none => ""
        Longitude := match coordinates with
          | some x => x.2.1
          | none => "" }
    if loc.City = "" ∧ loc.Country = "" ∧ loc.CountryCode = "" ∧ loc.Latitude = "" ∧
        loc.Longitude = "" then .noUsefulData
    else .record loc


/-! ## Slices -/

theorem Slice.ofList_WF (l : List String) : (Slice.ofList l).WF := by
  simp [Slice.WF, Slice.ofList]

theorem Slice.toList_ofList (l : List String) : (Slice.ofList l).toList = l := by
  simp [Slice.toList, Slice.ofList]

theorem Slice.length_toList (s : Slice) (h : s.WF) : s.toList.length = s.len := by
  simp [Slice.toList, Slice.WF] at *; omega

theorem Slice.index_eq (s : Slice) (i : Nat) : s.index i = s.toList[i]? := by
  unfold Slice.index Slice.toList
  by_cases h : i < s.len
  · simp [h, List.getElem?_take]
  · simp [h, List.getElem?_take]

theorem Slice.cut_eq_some (s : Slice) (pos k : Nat) (h : s.WF) (hk : pos + k ≤ s.len) :
    ∃ s', s.cut pos k = some s' ∧ s'.WF ∧ s'.len = s.len - k ∧
      s'.arr.length = s.arr.length ∧
      s'.toList = s.toList.take pos ++ s.toList.drop (pos + k) := by
  unfold Slice.WF at h
  refine ⟨_, by rw [Slice.cut, if_pos ⟨by omega, hk⟩], ?_, rfl, ?_, ?_⟩
  · simp only [Slice.WF, List.length_append, List.length_take, List.length_drop]
    omega
  · simp only [List.length_append, List.length_take, List.length_drop]
    omega
  · simp only [Slice.toList]
    rw [List.take_left']
    · rw [List.take_take, Nat.min_eq_left (by omega)]
    · simp only [List.length_append, List.length_take, List.length_drop]
      omega

theorem Slice.cut_eq_none (s : Slice) (pos k : Nat) (hk : s.len < pos + k) :
    s.cut pos k = none := by
  rw [Slice.cut, if_neg]
  omega

theorem Slice.cut_some (s s' : Slice) (pos k : Nat) (h : s.cut pos k = some s') :
    pos + k ≤ s.len := by
  unfold Slice.cut at h
  split at h
  · omega
  · cases h

theorem take_succ_append (l : List String) (pos : Nat) (h : pos < l.length)
    (r : List String) : l.take (pos + 1) ++ r = l.take pos ++ l[pos] :: r := by
  rw [List.take_succ, List.getElem?_eq_getElem h, List.append_assoc]
  rfl

theorem ipLoop_no_ip (lib : Lib) (k pos : Nat) (record : Slice) (loc : Geolocation)
    (h : ∀ j, pos ≤ j → j < pos + k → lib.ParseIP (record.arr.getD j "") = none) :
    ipLoop lib k pos record loc = some (record, loc) := by
  induction k generalizing pos with
  | zero => rfl
  | succ k ih =>
    rw [ipLoop, h pos (le_refl _) (by omega)]
    exact ih (pos + 1) (fun j h1 h2 => h j (by omega) (by omega))

/-- The first loop keeps the slice well formed, touches no field of `loc` but
`IPAddress`, and leaves there the initial value or a 16-byte address. -/
theorem ipLoop_frame (lib : Lib) (k pos : Nat) (record : Slice) (loc : Geolocation)
    (record' : Slice) (loc' : Geolocation) (hwf : record.WF)
    (h : ipLoop lib k pos record loc = some (record', loc')) :
    record'.WF ∧ loc'.CountryCode = loc.CountryCode ∧ loc'.Country = loc.Country ∧
      loc'.City = loc.City ∧ loc'.Latitude = loc.Latitude ∧ loc'.Longitude = loc.Longitude ∧
      (loc'.IPAddress = loc.IPAddress ∨ loc'.IPAddress.length = 16) := by
  induction k generalizing pos record loc with
  | zero =>
    simp only [ipLoop, Option.some.injEq, Prod.mk.injEq] at h
    obtain ⟨rfl, rfl⟩ := h
    simp [hwf]
  | succ k ih =>
    rw [ipLoop] at h
    cases hip : lib.ParseIP (record.arr.getD pos "") with
    | none =>
      rw [hip] at h
      exact ih _ _ _ hwf h
    | some ip =>
      rw [hip] at h
      cases hcut : record.cut pos 1 with
      | none => rw [hcut] at h; cases h
      | some r1 =>
        rw [hcut] at h
        obtain ⟨s', hs', hwf', -⟩ := Slice.cut_eq_some record pos 1 hwf (Slice.cut_some _ _ _ _ hcut)
        rw [hcut] at hs'
        cases hs'
        have := ih _ _ _ hwf' h
        simp only at this
        refine ⟨this.1, this.2.1, this.2.2.1, this.2.2.2.1, this.2.2.2.2.1, this.2.2.2.2.2.1, ?_⟩
        rcases this.2.2.2.2.2.2 with h1 | h1
        · right; rw [h1]; exact lib.ParseIP_len _ _ hip
        · right; exact h1

/-- The second loop finds the first pair of `splitCoordinates` and cuts it out. -/
theorem coordLoop_spec (lib : Lib) (record : Slice) (loc : Geolocation) (hwf : record.WF)
    (k pos : Nat) (hk : pos + k + 1 = record.len) :
    (∀ a b r, splitCoordinates lib (record.toList.drop pos) = some (a, b, r) →
      ∃ record', coordLoop lib record loc k pos
          = some (record', { loc with Latitude := a, Longitude := b }) ∧
        record'.WF ∧ record'.toList = record.toList.take pos ++ r) ∧
    (splitCoordinates lib (record.toList.drop pos) = none →
      coordLoop lib record loc k pos = some (record, loc)) := by
  have hlen := Slice.length_toList record hwf
  induction k generalizing pos with
  | zero =>
    have h1 : record.toList.drop pos = [record.toList[pos]] := by
      rw [List.drop_eq_getElem_cons (by omega), List.drop_of_length_le (by omega)]
    rw [h1]
    simp [splitCoordinates, coordLoop]
  | succ k ih =>
    have h1 : record.toList.drop pos
        = record.toList[pos] :: record.toList[pos + 1] :: record.toList.drop (pos + 2) := by
      rw [List.drop_eq_getElem_cons (by omega), List.drop_eq_getElem_cons (by omega)]
    have h2 : record.toList.drop (pos + 1)
        = record.toList[pos + 1] :: record.toList.drop (pos + 2) := by
      rw [List.drop_eq_getElem_cons (by omega)]
    have hi0 : record.index pos = some record.toList[pos] := by
      rw [Slice.index_eq, List.getElem?_eq_getElem]
    have hi1 : record.index (pos + 1) = some record.toList[pos + 1] := by
      rw [Slice.index_eq, List.getElem?_eq_getElem]
    obtain ⟨ih1, ih2⟩ := ih (pos + 1) (by omega)
    rw [h2] at ih1 ih2
    rw [h1, splitCoordinates, coordLoop, hi0]
    simp only [hi1]
    by_cases hlat : latRejected lib record.toList[pos] = true
    · simp only [hlat, Bool.not_true, Bool.false_and, Bool.false_eq_true, if_false, if_true]
      constructor
      · intro a b r hs
        simp only [Option.map_eq_some', Prod.mk.injEq, Prod.exists] at hs
        obtain ⟨a', b', r', hs', rfl, rfl, rfl⟩ := hs
        obtain ⟨record', e1, e2, e3⟩ := ih1 _ _ _ hs'
        refine ⟨record', e1, e2, ?_⟩
        rw [e3]
        exact take_succ_append _ _ (by omega) _
      · intro hs
        simp only [Option.map_eq_none'] at hs
        exact ih2 hs
    · simp only [Bool.not_eq_true] at hlat
      by_cases hlon : lonRejected lib record.toList[pos + 1] = true
      · simp only [hlat, hlon, Bool.not_true, Bool.and_false, Bool.false_eq_true, if_false,
          if_true]
        constructor
        · intro a b r hs
          simp only [Option.map_eq_some', Prod.mk.injEq, Prod.exists] at hs
          obtain ⟨a', b', r', hs', rfl, rfl, rfl⟩ := hs
          obtain ⟨record', e1, e2, e3⟩ := ih1 _ _ _ hs'
          refine ⟨record', e1, e2, ?_⟩
          rw [e3]
          exact take_succ_append _ _ (by omega) _
        · intro hs
          simp only [Option.map_eq_none'] at hs
          exact ih2 hs
      · simp only [Bool.not_eq_true] at hlon
        simp only [hlat, hlon, Bool.not_false, Bool.and_self, if_true, Bool.false_eq_true,
          if_false]
        obtain ⟨s', hs', hwf', -, -, hl⟩ := Slice.cut_eq_some record pos 2 hwf (by omega)
        constructor
        · intro a b r hs
          simp only [Option.some.injEq, Prod.mk.injEq] at hs
          obtain ⟨rfl, rfl, rfl⟩ := hs
          exact ⟨s', by rw [hs'], hwf', hl⟩
        · intro hs
          cases hs

/-- The third loop finds the first field of `splitCountryCode` and cuts it out. -/
theorem ccLoop_spec (lib : Lib) (record : Slice) (loc : Geolocation) (hwf : record.WF)
    (k pos : Nat) (hk : pos + k = record.len) :
    (∀ c r, splitCountryCode lib (record.toList.drop pos) = some (c, r) →
      ∃ record', ccLoop lib record loc k pos = some (record', { loc with CountryCode := c }) ∧
        record'.WF ∧ record'.toList = record.toList.take pos ++ r) ∧
    (splitCountryCode lib (record.toList.drop pos) = none →
      ccLoop lib record loc k pos = some (record, loc)) := by
  have hlen := Slice.length_toList record hwf
  induction k generalizing pos with
  | zero =>
    rw [List.drop_of_length_le (by omega)]
    simp [splitCountryCode, ccLoop]
  | succ k ih =>
    have h1 : record.toList.drop pos = record.toList[pos] :: record.toList.drop (pos + 1) := by
      rw [List.drop_eq_getElem_cons (by omega)]
    have hi0 : record.index pos = some record.toList[pos] := by
      rw [Slice.index_eq, List.getElem?_eq_getElem]
    have hv : record.arr.getD pos "" = record.toList[pos] := by
      have : record.arr[pos]? = some record.toList[pos] := by
        rw [← hi0, Slice.index, if_pos (by omega)]
      rw [List.getD_eq_getElem?_getD, this]; rfl
    obtain ⟨ih1, ih2⟩ := ih (pos + 1) (by omega)
    rw [h1, splitCountryCode, ccLoop, hi0]
    by_cases hcc : isCountryCode lib record.toList[pos] = true
    · simp only [hcc, if_true]
      obtain ⟨s', hs', hwf', -, -, hl⟩ := Slice.cut_eq_some record pos 1 hwf (by omega)
      constructor
      · intro c r hs
        simp only [Option.some.injEq, Prod.mk.injEq] at hs
        obtain ⟨rfl, rfl⟩ := hs
        exact ⟨s', by rw [hs', hv], hwf', hl⟩
      · intro hs
        cases hs
    · simp only [hcc, Bool.false_eq_true, if_false]
      constructor
      · intro c r hs
        simp only [Option.map_eq_some', Prod.mk.injEq, Prod.exists] at hs
        obtain ⟨c', r', hs', rfl, rfl⟩ := hs
        obtain ⟨record', e1, e2, e3⟩ := ih1 _ _ hs'
        refine ⟨record', e1, e2, ?_⟩
        rw [e3]
        exact take_succ_append _ _ (by omega) _
      · intro hs
        simp only [Option.map_eq_none'] at hs
        exact ih2 hs

theorem countryCity_eq (record : Slice) (loc : Geolocation) (hwf : record.WF) :
    countryCity record loc = some (match record.toList with
      | [] => loc
      | [c] => { loc with Country := c }
      | c :: d :: _ => { loc with Country := c, City := d }) := by
  have hlen := Slice.length_toList record hwf
  unfold countryCity
  rw [Slice.index_eq, Slice.index_eq]
  cases hl : record.toList with
  | nil =>
    rw [hl] at hlen
    have h0 : record.len = 0 := by simpa using hlen.symm
    simp [h0]
  | cons c t =>
    cases t with
    | nil =>
      rw [hl] at hlen
      have h0 : record.len = 1 := by simpa using hlen.symm
      simp [h0]
    | cons d t =>
      rw [hl] at hlen
      have h0 : 2 ≤ record.len := by simp at hlen; omega
      have h1 : 1 ≤ record.len := by omega
      simp [h0, h1]

/-- After the first loop `loadRecord` cannot panic, and what it leaves in `loc`
is `fillRest` of the fields of the slice. -/
theorem afterIP_eq (lib : Lib) (record : Slice) (loc : Geolocation) (hwf : record.WF) :
    afterIP lib record loc = some (fillRest lib record.toList loc) := by
  have hlen := Slice.length_toList record hwf
  -- the second loop
  have h2 : ∃ record1, record1.WF ∧
      (if record.len ≥ 2 then coordLoop lib record loc (record.len - 1) 0
        else some (record, loc)) = some (record1,
          match splitCoordinates lib record.toList with
          | some x => { loc with Latitude := x.1, Longitude := x.2.1 }
          | none => loc) ∧
      record1.toList = (match splitCoordinates lib record.toList with
          | some x => x.2.2
          | none => record.toList) := by
    by_cases h : record.len ≥ 2
    · rw [if_pos h]
      obtain ⟨c1, c2⟩ := coordLoop_spec lib record loc hwf (record.len - 1) 0 (by omega)
      rw [List.drop_zero] at c1 c2
      cases hs : splitCoordinates lib record.toList with
      | none => exact ⟨record, hwf, c2 hs, rfl⟩
      | some x =>
        obtain ⟨a, b, r⟩ := x
        obtain ⟨record1, e1, e2, e3⟩ := c1 a b r hs
        exact ⟨record1, e2, e1, by simpa using e3⟩
    · rw [if_neg h]
      have hs : splitCoordinates lib record.toList = none := by
        cases hl : record.toList with
        | nil => rfl
        | cons a t =>
          cases t with
          | nil => rfl
          | cons b t => rw [hl] at hlen; simp at hlen; omega
      rw [hs]
      exact ⟨record, hwf, rfl, rfl⟩
  obtain ⟨record1, hwf1, e1, l1⟩ := h2
  -- the third loop
  obtain ⟨c1, c2⟩ := ccLoop_spec lib record1 (match splitCoordinates lib record.toList with
          | some x => { loc with Latitude := x.1, Longitude := x.2.1 }
          | none => loc) hwf1 record1.len 0 (by omega)
  rw [List.drop_zero] at c1 c2
  unfold afterIP
  rw [e1]
  simp only
  unfold fillRest
  simp only
  rw [← l1]
  cases hs : splitCountryCode lib record1.toList with
  | none =>
    rw [c2 hs]
    simp only
    rw [countryCity_eq _ _ hwf1]
  | some x =>
    obtain ⟨c, r⟩ := x
    obtain ⟨record2, e2, hwf2, l2⟩ := c1 c r hs
    rw [e2]
    simp only
    rw [countryCity_eq _ _ hwf2, l2]
    simp

/-- The result of `loadRecord` on a row, from what its first loop leaves. -/
theorem loadRecord_of_ipLoop (lib : Lib) (fields : List String) (record1 : Slice)
    (loc1 : Geolocation)
    (h : ipLoop lib fields.length 0 (Slice.ofList fields) {} = some (record1, loc1)) :
    loadRecord lib (Slice.ofList fields) {} =
      if loc1.IPAddress.length = 0 then .error "no valid IP address found" loc1
      else if noUsefulData (fillRest lib record1.toList loc1) then
        .error "no useful data found" (fillRest lib record1.toList loc1)
      else .ok (fillRest lib record1.toList loc1) := by
  have hf := ipLoop_frame lib _ _ _ _ _ _ (Slice.ofList_WF fields) h
  unfold loadRecord
  have h' : ipLoop lib (Slice.ofList fields).len 0 (Slice.ofList fields) {}
      = some (record1, loc1) := h
  rw [h']
  simp only
  rw [afterIP_eq lib record1 loc1 hf.1]

theorem loadRecord_panic_iff (lib : Lib) (fields : List String) :
    loadRecord lib (Slice.ofList fields) {} = .panic ↔
      ipLoop lib fields.length 0 (Slice.ofList fields) {} = none := by
  constructor
  · intro h
    cases hi : ipLoop lib fields.length 0 (Slice.ofList fields) {} with
    | none => rfl
    | some x =>
      obtain ⟨record1, loc1⟩ := x
      rw [loadRecord_of_ipLoop lib fields record1 loc1 hi] at h
      split at h
      · cases h
      · split at h <;> cases h
  · intro h
    unfold loadRecord
    have h' : ipLoop lib (Slice.ofList fields).len 0 (Slice.ofList fields) {} = none := h
    rw [h']

/-! ## What `fillRest` leaves in each field -/

theorem latRejected_zero (lib : Lib) (a : String) (h : latRejected lib a = false) : a ≠ "0" := by
  intro h0
  subst h0
  unfold latRejected at h
  cases hp : lib.ParseFloat "0" with
  | none => rw [hp] at h; cases h
  | some lat => rw [hp] at h; simp at h

theorem lonRejected_zero (lib : Lib) (b : String) (h : lonRejected lib b = false) : b ≠ "0" := by
  intro h0
  subst h0
  unfold lonRejected at h
  cases hp : lib.ParseFloat "0" with
  | none => rw [hp] at h; cases h
  | some lon => rw [hp] at h; simp at h

/-- The pair `splitCoordinates` returns is the first adjacent pair of the list that
passes both tests, and the rest is the list without it. -/
theorem splitCoordinates_some (lib : Lib) (l : List String) (a b : String) (r : List String)
    (h : splitCoordinates lib l = some (a, b, r)) :
    ∃ pre post, l = pre ++ a :: b :: post ∧ r = pre ++ post ∧
      latRejected lib a = false ∧ lonRejected lib b = false ∧
      ∀ pre' a' b' post', l = pre' ++ a' :: b' :: post' → pre'.length < pre.length →
        latRejected lib a' = true ∨ lonRejected lib b' = true := by
  induction l generalizing a b r with
  | nil => simp [splitCoordinates] at h
  | cons x t ih =>
    cases t with
    | nil => simp [splitCoordinates] at h
    | cons y t =>
      rw [splitCoordinates] at h
      by_cases hacc : (!latRejected lib x && !lonRejected lib y) = true
      · rw [if_pos hacc] at h
        simp only [Option.some.injEq, Prod.mk.injEq] at h
        obtain ⟨rfl, rfl, rfl⟩ := h
        simp only [Bool.and_eq_true, Bool.not_eq_true'] at hacc
        exact ⟨[], _, rfl, rfl, hacc.1, hacc.2, by simp⟩
      · rw [if_neg hacc] at h
        simp only [Option.map_eq_some', Prod.mk.injEq, Prod.exists] at h
        obtain ⟨a', b', r', hs, rfl, rfl, rfl⟩ := h
        obtain ⟨pre, post, e1, e2, e3, e4, e5⟩ := ih _ _ _ hs
        refine ⟨x :: pre, post, by rw [e1]; rfl, by rw [e2]; rfl, e3, e4, ?_⟩
        intro pre' a'' b'' post' hl hlt
        cases pre' with
        | nil =>
          simp only [List.nil_append, List.cons.injEq] at hl
          obtain ⟨rfl, rfl, -⟩ := hl
          simp only [Bool.and_eq_true, Bool.not_eq_true', not_and, Bool.not_eq_false] at hacc
          by_cases hx : latRejected lib x = true
          · exact Or.inl hx
          · exact Or.inr (hacc (by simpa using hx))
        | cons z pre' =>
          simp only [List.cons_append, List.cons.injEq] at hl
          exact e5 pre' a'' b'' post' hl.2 (by simpa using hlt)

/-- When `splitCoordinates` finds nothing, no adjacent pair passes both tests. -/
theorem splitCoordinates_none (lib : Lib) (l : List String)
    (h : splitCoordinates lib l = none) :
    ∀ pre a b post, l = pre ++ a :: b :: post →
      latRejected lib a = true ∨ lonRejected lib b = true := by
  induction l with
  | nil => intro pre a b post hl; simp at hl
  | cons x t ih =>
    cases t with
    | nil =>
      intro pre a b post hl
      have := congrArg List.length hl
      simp at this
      omega
    | cons y t =>
      rw [splitCoordinates] at h
      by_cases hacc : (!latRejected lib x && !lonRejected lib y) = true
      · rw [if_pos hacc] at h; cases h
      · rw [if_neg hacc] at h
        simp only [Option.map_eq_none'] at h
        intro pre a b post hl
        cases pre with
        | nil =>
          simp only [List.nil_append, List.cons.injEq] at hl
          obtain ⟨rfl, rfl, -⟩ := hl
          simp only [Bool.and_eq_true, Bool.not_eq_true', not_and, Bool.not_eq_false] at hacc
          by_cases hx : latRejected lib x = true
          · exact Or.inl hx
          · exact Or.inr (hacc (by simpa using hx))
        | cons z pre =>
          simp only [List.cons_append, List.cons.injEq] at hl
          exact ih h pre a b post hl.2

/-- The field `splitCountryCode` returns is the first field of the list that
`isCountryCode` accepts, and the rest is the list without it. -/
theorem splitCountryCode_some (lib : Lib) (l : List String) (c : String) (r : List String)
    (h : splitCountryCode lib l = some (c, r)) :
    ∃ pre post, l = pre ++ c :: post ∧ r = pre ++ post ∧ isCountryCode lib c = true ∧
      ∀ x ∈ pre, isCountryCode lib x = false := by
  induction l generalizing c r with
  | nil => simp [splitCountryCode] at h
  | cons x t ih =>
    rw [splitCountryCode] at h
    by_cases hcc : isCountryCode lib x = true
    · rw [if_pos hcc] at h
      simp only [Option.some.injEq, Prod.mk.injEq] at h
      obtain ⟨rfl, rfl⟩ := h
      exact ⟨[], _, rfl, rfl, hcc, by simp⟩
    · rw [if_neg hcc] at h
      simp only [Option.map_eq_some', Prod.mk.injEq, Prod.exists] at h
      obtain ⟨c', r', hs, rfl, rfl⟩ := h
      obtain ⟨pre, post, e1, e2, e3, e4⟩ := ih _ _ hs
      refine ⟨x :: pre, post, by rw [e1]; rfl, by rw [e2]; rfl, e3, ?_⟩
      intro z hz
      rcases List.mem_cons.1 hz with rfl | hz
      · simpa using hcc
      · exact e4 z hz

/-- When `splitCountryCode` finds nothing, `isCountryCode` accepts no field. -/
theorem splitCountryCode_none (lib : Lib) (l : List String)
    (h : splitCountryCode lib l = none) : ∀ x ∈ l, isCountryCode lib x = false := by
  induction l with
  | nil => simp
  | cons x t ih =>
    rw [splitCountryCode] at h
    by_cases hcc : isCountryCode lib x = true
    · rw [if_pos hcc] at h; cases h
    · rw [if_neg hcc] at h
      simp only [Option.map_eq_none'] at h
      intro z hz
      rcases List.mem_cons.1 hz with rfl | hz
      · simpa using hcc
      · exact ih h z hz

theorem fillRest_IPAddress (lib : Lib) (l : List String) (loc : Geolocation) :
    (fillRest lib l loc).IPAddress = loc.IPAddress := by
  unfold fillRest
  simp only
  cases splitCoordinates lib l <;> simp only <;>
    split <;> split <;> rfl

theorem fillRest_coordinates (lib : Lib) (l : List String) (loc : Geolocation) :
    (fillRest lib l loc).Latitude
        = (match splitCoordinates lib l with
          | some x => x.1
          | none => loc.Latitude) ∧
      (fillRest lib l loc).Longitude
        = (match splitCoordinates lib l with
          | some x => x.2.1
          | none => loc.Longitude) := by
  unfold fillRest
  simp only
  cases splitCoordinates lib l <;> simp only <;>
    split <;> split <;> exact ⟨rfl, rfl⟩

/-- The list of fields the country-code step of `fillRest` works on. -/
theorem fillRest_CountryCode (lib : Lib) (l : List String) (loc : Geolocation) :
    (fillRest lib l loc).CountryCode
      = (match splitCountryCode lib (match splitCoordinates lib l with
            | some x => x.2.2
            | none => l) with
        | some x => x.1
        | none => loc.CountryCode) := by
  unfold fillRest
  simp only
  cases splitCoordinates lib l <;> simp only <;>
    split <;> split <;> rfl

/-- A successful `loadRecord`, taken apart: the first loop ends with a 16-byte
address in `loc.IPAddress` and nothing else, and the record is `fillRest` of the
fields that loop has left. -/
theorem loadRecord_ok (lib : Lib) (fields : List String) (loc' : Geolocation)
    (h : loadRecord lib (Slice.ofList fields) {} = .ok loc') :
    ∃ record1 ip, ipLoop lib fields.length 0 (Slice.ofList fields) {}
        = some (record1, { IPAddress := ip }) ∧ record1.WF ∧ ip.length = 16 ∧
      loc' = fillRest lib record1.toList { IPAddress := ip } ∧ noUsefulData loc' = false := by
  cases hi : ipLoop lib fields.length 0 (Slice.ofList fields) {} with
  | none =>
    rw [(loadRecord_panic_iff lib fields).2 hi] at h
    cases h
  | some x =>
    obtain ⟨record1, loc1⟩ := x
    have hf := ipLoop_frame lib _ _ _ _ _ _ (Slice.ofList_WF fields) hi
    rw [loadRecord_of_ipLoop lib fields record1 loc1 hi] at h
    have hloc1 : loc1 = { IPAddress := loc1.IPAddress } := by
      obtain ⟨_, h1, h2, h3, h4, h5, _⟩ := hf
      cases loc1
      simp only at h1 h2 h3 h4 h5
      simp [h1, h2, h3, h4, h5]
    by_cases h0 : loc1.IPAddress.length = 0
    · rw [if_pos h0] at h; cases h
    · rw [if_neg h0] at h
      by_cases hn : noUsefulData (fillRest lib record1.toList loc1) = true
      · rw [if_pos hn] at h; cases h
      · rw [if_neg hn] at h
        simp only [LoadResult.ok.injEq] at h
        refine ⟨record1, loc1.IPAddress, by rw [← hloc1], hf.1, ?_, ?_, ?_⟩
        · rcases hf.2.2.2.2.2.2 with h6 | h6
          · rw [h6] at h0; simp at h0
          · exact h6
        · rw [← hloc1, h]
        · rw [← h]; simpa using hn

/-! ## The first loop of `loadRecord`, on rows with one IP address and with more -/

/-- The first loop, run for `k1 + k2` iterations, is the loop run for `k1`
iterations and then for `k2`. -/
theorem ipLoop_add (lib : Lib) (k1 k2 pos : Nat) (record : Slice) (loc : Geolocation) :
    ipLoop lib (k1 + k2) pos record loc
      = (ipLoop lib k1 pos record loc).bind
          (fun x => ipLoop lib k2 (pos + k1) x.1 x.2) := by
  induction k1 generalizing pos record loc with
  | zero => simp [ipLoop]
  | succ k1 ih =>
    rw [Nat.succ_add, ipLoop, ipLoop]
    have hp : pos + (k1 + 1) = pos + 1 + k1 := by omega
    cases lib.ParseIP (record.arr.getD pos "") with
    | none => simp only; rw [ih, hp]
    | some ip =>
      simp only
      cases record.cut pos 1 with
      | none => rfl
      | some r => simp only; rw [ih, hp]

/-- On a row with exactly one field that parses as an IP address, the first loop
does not panic: it stores that address and removes that field. -/
theorem ipLoop_single (lib : Lib) (pre post : List String) (f : String) (ip : List Nat)
    (loc : Geolocation) (hf : lib.ParseIP f = some ip)
    (hpre : ∀ x ∈ pre, lib.ParseIP x = none) (hpost : ∀ x ∈ post, lib.ParseIP x = none) :
    ∃ record1, ipLoop lib (pre ++ f :: post).length 0 (Slice.ofList (pre ++ f :: post)) loc
        = some (record1, { loc with IPAddress := ip }) ∧
      record1.WF ∧ record1.toList = pre ++ post := by
  have hlen : (pre ++ f :: post).length = pre.length + (1 + post.length) := by
    simp; omega
  rw [hlen, ipLoop_add]
  -- the fields before the IP address
  have h1 : ipLoop lib pre.length 0 (Slice.ofList (pre ++ f :: post)) loc
      = some (Slice.ofList (pre ++ f :: post), loc) := by
    apply ipLoop_no_ip
    intro j _ hj
    have hj' : j < pre.length := by omega
    have : (Slice.ofList (pre ++ f :: post)).arr.getD j "" = pre[j] := by
      simp [Slice.ofList, List.getD_eq_getElem?_getD, List.getElem?_append_left hj',
        List.getElem?_eq_getElem hj']
    rw [this]
    exact hpre _ (List.getElem_mem _)
  rw [h1]
  simp only [Option.some_bind, Nat.zero_add]
  -- the IP address
  rw [ipLoop_add]
  have hv : (Slice.ofList (pre ++ f :: post)).arr.getD pre.length "" = f := by
    simp [Slice.ofList, List.getD_eq_getElem?_getD, List.getElem?_append_right (le_refl _)]
  obtain ⟨r1, hr1, hwf1, hl1, ha1, ht1⟩ := Slice.cut_eq_some (Slice.ofList (pre ++ f :: post))
    pre.length 1 (Slice.ofList_WF _) (by simp [Slice.ofList])
  have ht1' : r1.toList = pre ++ post := by
    rw [ht1, Slice.toList_ofList]
    simp
  have h2 : ipLoop lib 1 pre.length (Slice.ofList (pre ++ f :: post)) loc
      = some (r1, { loc with IPAddress := ip }) := by
    rw [ipLoop, hv, hf]
    simp only
    rw [hr1]
    rfl
  rw [h2]
  simp only [Option.some_bind]
  -- the fields after the IP address
  refine ⟨r1, ?_, hwf1, ht1'⟩
  apply ipLoop_no_ip
  intro j hj1 hj2
  have harr : r1.arr = pre ++ (post ++ (f :: post).drop post.length) := by
    have := hr1
    simp only [Slice.cut, Slice.ofList] at this
    rw [if_pos (by simp)] at this
    simp only [Option.some.injEq] at this
    rw [← this]
    simp only
    have e1 : (pre ++ f :: post).length - 1 = pre.length + post.length := by simp
    rw [List.take_left, List.take_length, e1, List.drop_append, List.drop_append,
      List.append_assoc]
    rfl
  cases post with
  | nil => simp at hj2; omega
  | cons y post =>
    rw [harr]
    have hj' : pre.length ≤ j := by omega
    have hsub : ∀ x ∈ y :: post ++ (f :: y :: post).drop (y :: post).length, x ∈ y :: post := by
      intro x hx
      rcases List.mem_append.1 hx with h | h
      · exact h
      · rw [List.length_cons, List.drop_succ_cons] at h
        exact List.mem_of_mem_drop h
    have hlt : j - pre.length < (y :: post ++ (f :: y :: post).drop (y :: post).length).length := by
      simp only [List.length_append, List.length_cons, List.length_drop] at hj2 ⊢
      omega
    rw [List.getD_eq_getElem?_getD, List.getElem?_append_right hj',
      List.getElem?_eq_getElem hlt]
    exact hpost _ (hsub _ (List.getElem_mem hlt))

/-- On a row with exactly one field that parses as an IP address `loadRecord` does
not panic, and its result is decided by `fillRest` on the other fields. -/
theorem loadRecord_single (lib : Lib) (pre post : List String) (f : String) (ip : List Nat)
    (hf : lib.ParseIP f = some ip)
    (hpre : ∀ x ∈ pre, lib.ParseIP x = none) (hpost : ∀ x ∈ post, lib.ParseIP x = none) :
    loadRecord lib (Slice.ofList (pre ++ f :: post)) {} =
      if noUsefulData (fillRest lib (pre ++ post) { IPAddress := ip }) then
        .error "no useful data found" (fillRest lib (pre ++ post) { IPAddress := ip })
      else .ok (fillRest lib (pre ++ post) { IPAddress := ip }) := by
  obtain ⟨r1, h1, -, h3⟩ := ipLoop_single lib pre post f ip {} hf hpre hpost
  rw [loadRecord_of_ipLoop lib _ r1 _ h1, h3]
  have := lib.ParseIP_len _ _ hf
  rw [if_neg (by simp only; omega)]

/-- Cutting one element out of a slice leaves the last cell of the backing array
as it was. -/
theorem Slice.cut_getLast? (s s' : Slice) (pos : Nat) (hwf : s.WF) (hn : 0 < s.arr.length)
    (h : s.cut pos 1 = some s') : s'.arr.getLast? = s.arr.getLast? := by
  have hk := Slice.cut_some _ _ _ _ h
  unfold Slice.WF at hwf
  unfold Slice.cut at h
  rw [if_pos ⟨by omega, hk⟩] at h
  simp only [Option.some.injEq] at h
  rw [← h]
  simp only
  rw [List.getLast?_append, List.getLast?_drop, if_neg (by omega)]
  cases hl : s.arr.getLast? with
  | none =>
    rw [List.getLast?_eq_none_iff] at hl
    rw [hl] at hn
    simp at hn
  | some g => rfl

/-- Once the slice is shorter than its backing array, the first loop panics if the
last cell of the array holds an IP address: it reaches that cell at an index that
is beyond the slice. -/
theorem ipLoop_short (lib : Lib) (k pos : Nat) (record : Slice) (loc : Geolocation)
    (hwf : record.WF) (hshort : record.len < record.arr.length)
    (hpos : pos + (k + 1) = record.arr.length) (g : String)
    (hlast : record.arr.getLast? = some g) (hg : lib.ParseIP g ≠ none) :
    ipLoop lib (k + 1) pos record loc = none := by
  induction k generalizing pos record loc with
  | zero =>
    have hv : record.arr.getD pos "" = g := by
      rw [List.getLast?_eq_getElem?] at hlast
      have : record.arr.length - 1 = pos := by omega
      rw [this] at hlast
      rw [List.getD_eq_getElem?_getD, hlast]
      rfl
    rw [ipLoop, hv]
    cases hp : lib.ParseIP g with
    | none => exact absurd hp hg
    | some ip =>
      simp only
      rw [Slice.cut_eq_none record pos 1 (by omega)]
  | succ k ih =>
    rw [ipLoop]
    cases lib.ParseIP (record.arr.getD pos "") with
    | none => exact ih (pos + 1) record loc hwf hshort (by omega) hlast
    | some ip =>
      simp only
      cases hcut : record.cut pos 1 with
      | none => rfl
      | some r =>
        simp only
        obtain ⟨s', hs', hwf', hl', ha', -⟩ :=
          Slice.cut_eq_some record pos 1 hwf (Slice.cut_some _ _ _ _ hcut)
        rw [hcut] at hs'
        cases hs'
        exact ih (pos + 1) r _ hwf' (by omega) (by omega)
          (by rw [Slice.cut_getLast? record r pos hwf (by omega) hcut]; exact hlast)

/-- The first loop panics on every row whose last field parses as an IP address
when an earlier field does too. -/
theorem ipLoop_last_ip (lib : Lib) (pre mid : List String) (f g : String)
    (loc : Geolocation) (hpre : ∀ x ∈ pre, lib.ParseIP x = none)
    (hf : lib.ParseIP f ≠ none) (hg : lib.ParseIP g ≠ none) :
    ipLoop lib (pre ++ f :: (mid ++ [g])).length 0 (Slice.ofList (pre ++ f :: (mid ++ [g]))) loc
      = none := by
  have hlen : (pre ++ f :: (mid ++ [g])).length = pre.length + (1 + (mid.length + 1)) := by
    simp; omega
  rw [hlen, ipLoop_add]
  have h1 : ipLoop lib pre.length 0 (Slice.ofList (pre ++ f :: (mid ++ [g]))) loc
      = some (Slice.ofList (pre ++ f :: (mid ++ [g])), loc) := by
    apply ipLoop_no_ip
    intro j _ hj
    have hj' : j < pre.length := by omega
    have : (Slice.ofList (pre ++ f :: (mid ++ [g]))).arr.getD j "" = pre[j] := by
      simp [Slice.ofList, List.getD_eq_getElem?_getD, List.getElem?_append_left hj',
        List.getElem?_eq_getElem hj']
    rw [this]
    exact hpre _ (List.getElem_mem _)
  rw [h1]
  simp only [Option.some_bind, Nat.zero_add]
  rw [ipLoop_add]
  have hv : (Slice.ofList (pre ++ f :: (mid ++ [g]))).arr.getD pre.length "" = f := by
    simp [Slice.ofList, List.getD_eq_getElem?_getD, List.getElem?_append_right (le_refl _)]
  obtain ⟨r1, hr1, hwf1, hl1, ha1, -⟩ := Slice.cut_eq_some
    (Slice.ofList (pre ++ f :: (mid ++ [g]))) pre.length 1 (Slice.ofList_WF _)
    (by simp [Slice.ofList])
  cases hp : lib.ParseIP f with
  | none => exact absurd hp hf
  | some ip =>
    have h2 : ipLoop lib 1 pre.length (Slice.ofList (pre ++ f :: (mid ++ [g]))) loc
        = some (r1, { loc with IPAddress := ip }) := by
      rw [ipLoop, hv, hp]
      simp only
      rw [hr1]
      rfl
    rw [h2]
    simp only [Option.some_bind]
    have hlast : r1.arr.getLast? = some g := by
      rw [Slice.cut_getLast? _ r1 _ (Slice.ofList_WF _) (by simp [Slice.ofList]) hr1]
      simp only [Slice.ofList]
      rw [show pre ++ f :: (mid ++ [g]) = (pre ++ f :: mid) ++ [g] by simp]
      exact List.getLast?_concat _
    have hal : r1.arr.length = pre.length + (1 + (mid.length + 1)) := by
      rw [ha1]
      simp only [Slice.ofList]
      exact hlen
    have hll : r1.len = pre.length + (mid.length + 1) := by
      rw [hl1]
      simp only [Slice.ofList]
      rw [hlen]
      omega
    exact ipLoop_short lib mid.length (pre.length + 1) r1 _ hwf1 (by omega) (by omega) g
      hlast hg

/-- The first element of a list with a property, and what comes before it. -/
theorem exists_first_ip (lib : Lib) (l : List String) (h : ∃ f ∈ l, lib.ParseIP f ≠ none) :
    ∃ pre f post, l = pre ++ f :: post ∧ lib.ParseIP f ≠ none ∧
      ∀ x ∈ pre, lib.ParseIP x = none := by
  induction l with
  | nil => obtain ⟨f, hf, _⟩ := h; cases hf
  | cons a t ih =>
    by_cases ha : lib.ParseIP a = none
    · have ht : ∃ f ∈ t, lib.ParseIP f ≠ none := by
        obtain ⟨f, hf, hp⟩ := h
        rcases List.mem_cons.1 hf with rfl | hf
        · exact absurd ha hp
        · exact ⟨f, hf, hp⟩
      obtain ⟨pre, f, post, e, hp, hpre⟩ := ih ht
      refine ⟨a :: pre, f, post, by rw [e]; rfl, hp, ?_⟩
      intro x hx
      rcases List.mem_cons.1 hx with rfl | hx
      · exact ha
      · exact hpre x hx
    · exact ⟨[], a, t, rfl, ha, by simp⟩

/-! ## What the steps of `loadRecord` accept -/

/-- The latitude test passes exactly the texts other than `0` that parse to NaN or
to a finite number from -90 to 90. -/
theorem latRejected_eq_false_iff (lib : Lib) (a : String) :
    latRejected lib a = false ↔
      a ≠ "0" ∧ (lib.ParseFloat a = some .nan ∨
        ∃ q, lib.ParseFloat a = some (.fin q) ∧ -90 ≤ q ∧ q ≤ 90) := by
  unfold latRejected
  cases lib.ParseFloat a with
  | none => simp
  | some x =>
    cases x with
    | nan => simp [Float64.lt]
    | inf b => cases b <;> simp [Float64.lt]
    | fin q => simp [Float64.lt, and_assoc]

/-- The longitude test passes exactly the texts other than `0` that parse to NaN or
to a finite number from -180 to 180. -/
theorem lonRejected_eq_false_iff (lib : Lib) (b : String) :
    lonRejected lib b = false ↔
      b ≠ "0" ∧ (lib.ParseFloat b = some .nan ∨
        ∃ q, lib.ParseFloat b = some (.fin q) ∧ -180 ≤ q ∧ q ≤ 180) := by
  unfold lonRejected
  cases lib.ParseFloat b with
  | none => simp
  | some x =>
    cases x with
    | nan => simp [Float64.lt]
    | inf b => cases b <;> simp [Float64.lt]
    | fin q => simp [Float64.lt, and_assoc]

/-- The coordinates of a record `loadRecord` produces: the texts of the first
adjacent pair, among the fields the first loop has left, that passes both tests,
and the two fields are removed; or no coordinates when no pair passes. -/
theorem loadRecord_coordinates (lib : Lib) (fields : List String) (loc' : Geolocation)
    (h : loadRecord lib (Slice.ofList fields) {} = .ok loc') :
    ∃ record1 ip, ipLoop lib fields.length 0 (Slice.ofList fields) {}
        = some (record1, { IPAddress := ip }) ∧
      ((∃ pre a b post, record1.toList = pre ++ a :: b :: post ∧
          splitCoordinates lib record1.toList = some (a, b, pre ++ post) ∧
          latRejected lib a = false ∧ lonRejected lib b = false ∧
          (∀ pre' a' b' post', record1.toList = pre' ++ a' :: b' :: post' →
            pre'.length < pre.length → latRejected lib a' = true ∨ lonRejected lib b' = true) ∧
          loc'.Latitude = a ∧ loc'.Longitude = b) ∨
        ((∀ pre a b post, record1.toList = pre ++ a :: b :: post →
            latRejected lib a = true ∨ lonRejected lib b = true) ∧
          loc'.Latitude = "" ∧ loc'.Longitude = "")) := by
  obtain ⟨record1, ip, h1, -, -, hloc, -⟩ := loadRecord_ok lib fields loc' h
  have hc := fillRest_coordinates lib record1.toList { IPAddress := ip }
  rw [← hloc] at hc
  refine ⟨record1, ip, h1, ?_⟩
  cases hs : splitCoordinates lib record1.toList with
  | none =>
    rw [hs] at hc
    exact Or.inr ⟨splitCoordinates_none lib _ hs, hc.1, hc.2⟩
  | some x =>
    obtain ⟨a, b, r⟩ := x
    rw [hs] at hc
    obtain ⟨pre, post, e1, e2, e3, e4, e5⟩ := splitCoordinates_some lib _ _ _ _ hs
    exact Or.inl ⟨pre, a, b, post, e1, by rw [e2], e3, e4, e5, hc.1, hc.2⟩

/-- A text of valid UTF-8 is two bytes long when it is two characters of one byte
each or one character of two bytes. -/
theorem utf8Len_eq_two (l : List Char) :
    String.utf8Len l = 2 ↔
      (∃ a b, l = [a, b] ∧ a.utf8Size = 1 ∧ b.utf8Size = 1) ∨ (∃ a, l = [a] ∧ a.utf8Size = 2) := by
  cases l with
  | nil =>
    rw [String.utf8Len_nil]
    constructor
    · intro h; cases h
    · rintro (⟨a, b, e, -⟩ | ⟨a, e, -⟩) <;> cases e
  | cons a t =>
    have ha := Char.utf8Size_pos a
    cases t with
    | nil =>
      rw [String.utf8Len_cons, String.utf8Len_nil, Nat.zero_add]
      constructor
      · intro h; exact Or.inr ⟨a, rfl, h⟩
      · rintro (⟨a', b, e, -⟩ | ⟨a', e, h⟩)
        · cases e
        · cases e; exact h
    | cons b t =>
      have hb := Char.utf8Size_pos b
      cases t with
      | nil =>
        rw [String.utf8Len_cons, String.utf8Len_cons, String.utf8Len_nil, Nat.zero_add]
        constructor
        · intro h; exact Or.inl ⟨a, b, rfl, by omega, by omega⟩
        · rintro (⟨a', b', e, h1, h2⟩ | ⟨a', e, h⟩)
          · cases e; omega
          · cases e
      | cons c t =>
        have hc := Char.utf8Size_pos c
        rw [String.utf8Len_cons, String.utf8Len_cons, String.utf8Len_cons]
        constructor
        · intro h; omega
        · rintro (⟨a', b', e, -⟩ | ⟨a', e, -⟩) <;> cases e

/-- The texts `isCountryCode` accepts: two bytes that are two upper-case
characters of one byte each, or one upper-case character of two bytes. -/
theorem isCountryCode_iff (lib : Lib) (s : String) :
    isCountryCode lib s = true ↔
      (∃ a b, s = String.mk [a, b] ∧ a.utf8Size = 1 ∧ b.utf8Size = 1 ∧
          lib.IsUpper a = true ∧ lib.IsUpper b = true) ∨
        (∃ a, s = String.mk [a] ∧ a.utf8Size = 2 ∧ lib.IsUpper a = true) := by
  obtain ⟨l⟩ := s
  have hdef : isCountryCode lib ⟨l⟩ = true ↔
      String.utf8Len l = 2 ∧ ∀ c ∈ l, lib.IsUpper c = true := by
    unfold isCountryCode
    rw [String.utf8ByteSize_mk]
    by_cases h : String.utf8Len l = 2
    · rw [if_neg (by simpa using h)]
      simp [h, List.all_eq_true]
    · rw [if_pos (by simpa using h)]
      simp [h]
  rw [hdef, utf8Len_eq_two]
  constructor
  · rintro ⟨(⟨a, b, e, h1, h2⟩ | ⟨a, e, h1⟩), hu⟩
    · subst e
      exact Or.inl ⟨a, b, rfl, h1, h2, hu a (by simp), hu b (by simp)⟩
    · subst e
      exact Or.inr ⟨a, rfl, h1, hu a (by simp)⟩
  · rintro (⟨a, b, e, h1, h2, u1, u2⟩ | ⟨a, e, h1, u1⟩)
    · have e' : l = [a, b] := congrArg String.data e
      subst e'
      refine ⟨Or.inl ⟨a, b, rfl, h1, h2⟩, ?_⟩
      intro c hc
      simp only [List.mem_cons, List.mem_singleton, List.not_mem_nil, or_false] at hc
      rcases hc with rfl | rfl
      · exact u1
      · exact u2
    · have e' : l = [a] := congrArg String.data e
      subst e'
      refine ⟨Or.inr ⟨a, rfl, h1⟩, ?_⟩
      intro c hc
      simp only [List.mem_singleton] at hc
      rw [hc]
      exact u1

/-- The country code of a record `loadRecord` produces is empty or a text that
`isCountryCode` accepts. -/
theorem loadRecord_CountryCode (lib : Lib) (fields : List String) (loc' : Geolocation)
    (h : loadRecord lib (Slice.ofList fields) {} = .ok loc') :
    loc'.CountryCode = "" ∨ isCountryCode lib loc'.CountryCode = true := by
  obtain ⟨record1, ip, -, -, -, hloc, -⟩ := loadRecord_ok lib fields loc' h
  have hc := fillRest_CountryCode lib record1.toList { IPAddress := ip }
  rw [← hloc] at hc
  rw [hc]
  split
  · next x hs =>
    obtain ⟨c, r⟩ := x
    obtain ⟨_, _, _, _, e3, _⟩ := splitCountryCode_some lib _ _ _ hs
    exact Or.inr e3
  · exact Or.inl rfl

/-- When the first loop of `loadRecord` ends with an address, `loadRecord` fails
with "no useful data found" exactly when the five other fields are empty after the
later steps, and succeeds otherwise, with a 16-byte address. -/
theorem loadRecord_useful (lib : Lib) (fields : List String) (record1 : Slice)
    (loc1 : Geolocation)
    (h : ipLoop lib fields.length 0 (Slice.ofList fields) {} = some (record1, loc1))
    (hip : loc1.IPAddress ≠ []) :
    (noUsefulData (fillRest lib record1.toList loc1) = true →
        loadRecord lib (Slice.ofList fields) {}
          = .error "no useful data found" (fillRest lib record1.toList loc1)) ∧
      (noUsefulData (fillRest lib record1.toList loc1) = false →
        loadRecord lib (Slice.ofList fields) {} = .ok (fillRest lib record1.toList loc1) ∧
          (fillRest lib record1.toList loc1).IPAddress.length = 16) := by
  have hf := ipLoop_frame lib _ _ _ _ _ _ (Slice.ofList_WF fields) h
  rw [loadRecord_of_ipLoop lib fields record1 loc1 h]
  have h0 : ¬ loc1.IPAddress.length = 0 := by
    intro h0
    exact hip (List.length_eq_zero.1 h0)
  rw [if_neg h0]
  constructor
  · intro hn
    rw [if_pos hn]
  · intro hn
    rw [if_neg (by rw [hn]; simp)]
    refine ⟨rfl, ?_⟩
    rw [fillRest_IPAddress]
    rcases hf.2.2.2.2.2.2 with h6 | h6
    · exact absurd h6 hip
    · exact h6

/-- `loadRecord` does not panic on a row with no field that parses as an IP
address, nor on a row with exactly one. -/
theorem loadRecord_no_panic (lib : Lib) (fields : List String)
    (h : (∀ x ∈ fields, lib.ParseIP x = none) ∨
      ∃ pre f post, fields = pre ++ f :: post ∧ lib.ParseIP f ≠ none ∧
        (∀ x ∈ pre, lib.ParseIP x = none) ∧ (∀ x ∈ post, lib.ParseIP x = none)) :
    loadRecord lib (Slice.ofList fields) {} ≠ .panic := by
  rcases h with h | ⟨pre, f, post, e, hf, hpre, hpost⟩
  · intro hp
    rw [loadRecord_panic_iff] at hp
    have hloop : ipLoop lib fields.length 0 (Slice.ofList fields) {}
        = some (Slice.ofList fields, {}) := by
      apply ipLoop_no_ip
      intro j _ hj
      have hj' : j < fields.length := by omega
      have : (Slice.ofList fields).arr.getD j "" = fields[j] := by
        simp [Slice.ofList, List.getD_eq_getElem?_getD, List.getElem?_eq_getElem hj']
      rw [this]
      exact h _ (List.getElem_mem _)
    rw [hloop] at hp
    cases hp
  · cases hip : lib.ParseIP f with
    | none => exact absurd hip hf
    | some ip =>
      rw [e, loadRecord_single lib pre post f ip hip hpre hpost]
      split <;> simp

/-! ## `loadRecord`: rows without an IP address -/

/-- C1. A row in which no field parses as an IP literal makes `loadRecord` return
the error "no valid IP address found", whatever else the row holds. -/
theorem loadRecord_no_valid_ip (lib : Lib) (fields : List String)
    (h : ∀ f ∈ fields, lib.ParseIP f = none) :
    loadRecord lib (Slice.ofList fields) {} = .error "no valid IP address found" {} := by
  have hloop : ipLoop lib fields.length 0 (Slice.ofList fields) {}
      = some (Slice.ofList fields, {}) := by
    apply ipLoop_no_ip
    intro j _ hj
    have hj' : j < fields.length := by omega
    have : (Slice.ofList fields).arr.getD j "" = fields[j] := by
      simp [Slice.ofList, List.getD_eq_getElem?_getD, List.getElem?_eq_getElem hj']
    rw [this]
    exact h _ (List.getElem_mem _)
  rw [loadRecord_of_ipLoop lib fields _ _ hloop]
  rfl

/-- C1, at a row with valid coordinates, a country code, a country and a city but
no IP address. -/
theorem loadRecord_no_valid_ip_witness :
    loadRecord sampleLib (Slice.ofList ["PT", "Portugal", "Lisbon", "38.72", "-9.13"]) {}
      = .error "no valid IP address found" {} :=
  loadRecord_no_valid_ip sampleLib _ (by decide)

/-! ## `loadRecord`: rows with several IP addresses -/

/-- C2 (what the code does). In the row `1.2.3.4, x, 5.6.7.8, y` the first loop
goes on after the first IP address (and, the fields having moved down, skips `x`):
the record gets the address of the third field, and both IP fields are gone
before the later steps (`y` is the city). -/
theorem loadRecord_keeps_last_ip (lib : Lib) (ip1 ip2 : List Nat)
    (h1 : lib.ParseIP "1.2.3.4" = some ip1) (h2 : lib.ParseIP "5.6.7.8" = some ip2)
    (hy : lib.ParseIP "y" = none)
    (hfx : lib.ParseFloat "x" = none) :
    loadRecord lib (Slice.ofList ["1.2.3.4", "x", "5.6.7.8", "y"]) {}
      = .ok { IPAddress := ip2, Country := "x", City := "y" } := by
  have hlen := lib.ParseIP_len _ _ h2
  have hne : ip2 ≠ [] := by intro h; rw [h] at hlen; cases hlen
  have hcx : isCountryCode lib "x" = false := by
    unfold isCountryCode; rw [if_pos (by decide)]
  have hcy : isCountryCode lib "y" = false := by
    unfold isCountryCode; rw [if_pos (by decide)]
  simp [loadRecord, Slice.ofList, ipLoop, Slice.cut, h1, h2, hy, afterIP, coordLoop,
    Slice.index, latRejected, hfx, ccLoop, hcx, hcy, countryCity, noUsefulData, hne]

/-- C2, with the concrete library. -/
theorem loadRecord_keeps_last_ip_witness :
    loadRecord sampleLib (Slice.ofList ["1.2.3.4", "x", "5.6.7.8", "y"]) {}
      = .ok { IPAddress := [0, 0, 0, 0, 0, 0, 0, 0, 0, 0, 255, 255, 5, 6, 7, 8],
              Country := "x", City := "y" } :=
  loadRecord_keeps_last_ip sampleLib [0, 0, 0, 0, 0, 0, 0, 0, 0, 0, 255, 255, 1, 2, 3, 4]
    [0, 0, 0, 0, 0, 0, 0, 0, 0, 0, 255, 255, 5, 6, 7, 8] (by decide) (by decide) (by decide)
    (by rfl)

/-- C3 (what the code does). `loadRecord` panics on every row whose last field
parses as an IP address when an earlier field does too: the first loop has no
`break`, so after it has cut the earlier address out it goes on over the original
length, meets the last field again in the last cell of the backing array, at an
index that is now beyond the slice, and evaluates `record[pos+1:]` there. -/
theorem loadRecord_panics_last_ip (lib : Lib) (front : List String) (g : String)
    (hfront : ∃ f ∈ front, lib.ParseIP f ≠ none) (hg : lib.ParseIP g ≠ none) :
    loadRecord lib (Slice.ofList (front ++ [g])) {} = .panic := by
  obtain ⟨pre, f, post, e, hp, hpre⟩ := exists_first_ip lib front hfront
  have e' : front ++ [g] = pre ++ f :: (post ++ [g]) := by rw [e]; simp
  rw [e']
  exact (loadRecord_panic_iff lib _).2 (ipLoop_last_ip lib pre post f g {} hpre hp hg)

/-- C3, at the row `1.2.3.4, 5.6.7.8`. -/
theorem loadRecord_panics_last_ip_witness :
    loadRecord sampleLib (Slice.ofList ["1.2.3.4", "5.6.7.8"]) {} = .panic :=
  loadRecord_panics_last_ip sampleLib ["1.2.3.4"] "5.6.7.8"
    ⟨"1.2.3.4", by simp, by decide⟩ (by decide)

/-! ## `loadRecord`: coordinates -/

/-- C4 (what the code does). `strconv.ParseFloat` parses `NaN` without error and
every comparison with NaN is false, so the pair `NaN, NaN` passes both range
tests and becomes the coordinates. -/
theorem loadRecord_nan_coordinates (lib : Lib) (ip : List Nat)
    (h1 : lib.ParseIP "1.2.3.4" = some ip) (h2 : lib.ParseIP "NaN" = none)
    (hf : lib.ParseFloat "NaN" = some .nan) :
    loadRecord lib (Slice.ofList ["1.2.3.4", "NaN", "NaN"]) {}
      = .ok { IPAddress := ip, Latitude := "NaN", Longitude := "NaN" } := by
  have hlen := lib.ParseIP_len _ _ h1
  have hne : ip ≠ [] := by intro h; rw [h] at hlen; cases hlen
  simp [loadRecord, Slice.ofList, ipLoop, Slice.cut, h1, h2, afterIP, coordLoop,
    Slice.index, latRejected, lonRejected, hf, Float64.lt, ccLoop, countryCity, noUsefulData,
    hne]

/-- C4, with the concrete library. -/
theorem loadRecord_nan_coordinates_witness :
    loadRecord sampleLib (Slice.ofList ["1.2.3.4", "NaN", "NaN"]) {}
      = .ok { IPAddress := [0, 0, 0, 0, 0, 0, 0, 0, 0, 0, 255, 255, 1, 2, 3, 4],
              Latitude := "NaN", Longitude := "NaN" } :=
  loadRecord_nan_coordinates sampleLib [0, 0, 0, 0, 0, 0, 0, 0, 0, 0, 255, 255, 1, 2, 3, 4]
    (by decide) (by decide) (by rfl)

/-- C5. The record `loadRecord` produces never has the text `0` as its latitude
or as its longitude. -/
theorem loadRecord_coordinate_never_zero (lib : Lib) (fields : List String)
    (loc' : Geolocation) (h : loadRecord lib (Slice.ofList fields) {} = .ok loc') :
    loc'.Latitude ≠ "0" ∧ loc'.Longitude ≠ "0" := by
  obtain ⟨record1, ip, -, -, -, hloc, -⟩ := loadRecord_ok lib fields loc' h
  have hc := fillRest_coordinates lib record1.toList { IPAddress := ip }
  rw [← hloc] at hc
  cases hs : splitCoordinates lib record1.toList with
  | none =>
    rw [hs] at hc
    rw [hc.1, hc.2]
    show ("" : String) ≠ "0" ∧ ("" : String) ≠ "0"
    exact ⟨by decide, by decide⟩
  | some x =>
    obtain ⟨a, b, r⟩ := x
    rw [hs] at hc
    obtain ⟨_, _, _, _, ha, hb, _⟩ := splitCoordinates_some lib _ _ _ _ hs
    rw [hc.1, hc.2]
    exact ⟨latRejected_zero lib a ha, lonRejected_zero lib b hb⟩

/-- C5, at the row `1.2.3.4, 0, 12.5`: both numbers are in range, and the pair is
not taken. -/
theorem loadRecord_coordinate_never_zero_witness :
    loadRecord sampleLib (Slice.ofList ["1.2.3.4", "0", "12.5"]) {}
        = .ok { IPAddress := [0, 0, 0, 0, 0, 0, 0, 0, 0, 0, 255, 255, 1, 2, 3, 4],
                Country := "0", City := "12.5", Latitude := "", Longitude := "" } ∧
      ({ IPAddress := [0, 0, 0, 0, 0, 0, 0, 0, 0, 0, 255, 255, 1, 2, 3, 4],
         Country := "0", City := "12.5", Latitude := "", Longitude := "" } : Geolocation).Latitude
        ≠ "0" :=
  ⟨by decide,
   (loadRecord_coordinate_never_zero sampleLib ["1.2.3.4", "0", "12.5"]
      { IPAddress := [0, 0, 0, 0, 0, 0, 0, 0, 0, 0, 255, 255, 1, 2, 3, 4],
        Country := "0", City := "12.5" } (by decide)).1⟩

/-! ## `isCountryCode` -/

/-- C6 (what the code does). `len(code)` counts bytes: the one letter `É`
(U+00C9, two bytes in UTF-8) is accepted and the two letters `ÉÉ` are not, so a
row can get a country code of one letter. -/
theorem isCountryCode_counts_bytes (lib : Lib) (ip : List Nat)
    (hu : lib.IsUpper '\u00C9' = true)
    (h1 : lib.ParseIP "1.2.3.4" = some ip) (h2 : lib.ParseIP "\u00C9" = none) :
    isCountryCode lib "\u00C9" = true ∧ isCountryCode lib "\u00C9\u00C9" = false ∧
      loadRecord lib (Slice.ofList ["1.2.3.4", "\u00C9"]) {}
        = .ok { IPAddress := ip, CountryCode := "\u00C9" } := by
  have hlen := lib.ParseIP_len _ _ h1
  have hne : ip ≠ [] := by intro h; rw [h] at hlen; cases hlen
  have hc1 : isCountryCode lib "\u00C9" = true := by
    unfold isCountryCode
    rw [if_neg (by decide)]
    simp [hu]
  have hc2 : isCountryCode lib "\u00C9\u00C9" = false := by
    unfold isCountryCode
    rw [if_pos (by decide)]
  refine ⟨hc1, hc2, ?_⟩
  simp [loadRecord, Slice.ofList, ipLoop, Slice.cut, h1, h2, afterIP, coordLoop,
    Slice.index, ccLoop, hc1, countryCity, noUsefulData, hne]

/-- C6, with the concrete library. -/
theorem isCountryCode_counts_bytes_witness :
    isCountryCode sampleLib "\u00C9" = true ∧ isCountryCode sampleLib "\u00C9\u00C9" = false ∧
      loadRecord sampleLib (Slice.ofList ["1.2.3.4", "\u00C9"]) {}
        = .ok { IPAddress := [0, 0, 0, 0, 0, 0, 0, 0, 0, 0, 255, 255, 1, 2, 3, 4],
                CountryCode := "\u00C9" } :=
  isCountryCode_counts_bytes sampleLib [0, 0, 0, 0, 0, 0, 0, 0, 0, 0, 255, 255, 1, 2, 3, 4]
    (by decide) (by decide) (by decide)

/-! ## `loadRecord`: the row of the specification -/

/-- C7. On the row `Gradymouth, TL, Saudi Arabia, -49.16675918861615,
-86.05920084416894, 70.95.73.73, 999` `loadRecord` succeeds with the address of
`70.95.73.73`, the country code `TL`, the two coordinate texts as they stand,
`Gradymouth` as the country and `Saudi Arabia` as the city; `999` is ignored. -/
theorem loadRecord_gradymouth (lib : Lib) (ip : List Nat) (lat lon : ℚ)
    (hip : lib.ParseIP "70.95.73.73" = some ip)
    (hnip : ∀ f ∈ ["Gradymouth", "TL", "Saudi Arabia", "-49.16675918861615",
      "-86.05920084416894", "999"], lib.ParseIP f = none)
    (hnf : ∀ f ∈ ["Gradymouth", "TL", "Saudi Arabia"], lib.ParseFloat f = none)
    (hlat : lib.ParseFloat "-49.16675918861615" = some (.fin lat))
    (hlatr : -90 ≤ lat ∧ lat ≤ 90)
    (hlon : lib.ParseFloat "-86.05920084416894" = some (.fin lon))
    (hlonr : -180 ≤ lon ∧ lon ≤ 180)
    (hT : lib.IsUpper 'T' = true) (hL : lib.IsUpper 'L' = true) :
    loadRecord lib (Slice.ofList ["Gradymouth", "TL", "Saudi Arabia", "-49.16675918861615",
        "-86.05920084416894", "70.95.73.73", "999"]) {}
      = .ok { IPAddress := ip, CountryCode := "TL", Country := "Gradymouth",
              City := "Saudi Arabia", Latitude := "-49.16675918861615",
              Longitude := "-86.05920084416894" } := by
  have hlen := lib.ParseIP_len _ _ hip
  have hne : ip ≠ [] := by intro h; rw [h] at hlen; cases hlen
  simp only [List.mem_cons, List.mem_singleton, forall_eq_or_imp, forall_eq, List.not_mem_nil,
    false_implies, implies_true, and_true] at hnip hnf
  obtain ⟨n1, n2, n3, n4, n5, n6⟩ := hnip
  obtain ⟨f1, f2, f3⟩ := hnf
  have hc0 : isCountryCode lib "Gradymouth" = false := by
    unfold isCountryCode; rw [if_pos (by decide)]
  have hc1 : isCountryCode lib "TL" = true := by
    unfold isCountryCode
    rw [if_neg (by decide)]
    simp [hT, hL]
  have hl1 : latRejected lib "Gradymouth" = true := by simp [latRejected, f1]
  have hl2 : latRejected lib "TL" = true := by simp [latRejected, f2]
  have hl3 : latRejected lib "Saudi Arabia" = true := by simp [latRejected, f3]
  have hl4 : latRejected lib "-49.16675918861615" = false := by
    simp [latRejected, hlat, Float64.lt, hlatr.1, hlatr.2]
  have hl5 : lonRejected lib "-86.05920084416894" = false := by
    simp [lonRejected, hlon, Float64.lt, hlonr.1, hlonr.2]
  simp [loadRecord, Slice.ofList, ipLoop, Slice.cut, hip, n1, n2, n3, n4, n5, n6, afterIP,
    coordLoop, Slice.index, hl1, hl2, hl3, hl4, hl5, ccLoop, hc0, hc1, countryCity,
    noUsefulData, hne]

/-- C7, with the concrete library. -/
theorem loadRecord_gradymouth_witness :
    loadRecord sampleLib (Slice.ofList ["Gradymouth", "TL", "Saudi Arabia",
        "-49.16675918861615", "-86.05920084416894", "70.95.73.73", "999"]) {}
      = .ok { IPAddress := [0, 0, 0, 0, 0, 0, 0, 0, 0, 0, 255, 255, 70, 95, 73, 73],
              CountryCode := "TL", Country := "Gradymouth", City := "Saudi Arabia",
              Latitude := "-49.16675918861615", Longitude := "-86.05920084416894" } :=
  loadRecord_gradymouth sampleLib [0, 0, 0, 0, 0, 0, 0, 0, 0, 0, 255, 255, 70, 95, 73, 73]
    (mkRat (-4916675918861615) 100000000000000) (mkRat (-8605920084416894) 100000000000000)
    (by decide) (by decide) (by intro f hf; fin_cases hf <;> rfl) (by rfl) (by decide)
    (by rfl) (by decide) (by decide) (by decide)

/-! ## `loadRecord`: the last test -/

/-- C8 (what the code does). In the row `8.8.8.8, Lisbon, 8.8.4.4` the last
field is an IP address that the first loop meets again at index 2, after the slice
has shrunk to length 1: `loadRecord` neither fails with "no useful data found" nor
succeeds, it panics. -/
theorem loadRecord_panics_with_ip (lib : Lib) (ip1 ip2 : List Nat)
    (h1 : lib.ParseIP "8.8.8.8" = some ip1) (h2 : lib.ParseIP "8.8.4.4" = some ip2) :
    loadRecord lib (Slice.ofList ["8.8.8.8", "Lisbon", "8.8.4.4"]) {} = .panic := by
  simp [loadRecord, Slice.ofList, ipLoop, Slice.cut, h1, h2]

/-- C8, with the concrete library. -/
theorem loadRecord_panics_with_ip_witness :
    loadRecord sampleLib (Slice.ofList ["8.8.8.8", "Lisbon", "8.8.4.4"]) {} = .panic :=
  loadRecord_panics_with_ip sampleLib [0, 0, 0, 0, 0, 0, 0, 0, 0, 0, 255, 255, 8, 8, 8, 8]
    [0, 0, 0, 0, 0, 0, 0, 0, 0, 0, 255, 255, 8, 8, 4, 4] (by decide) (by decide)

/-! ## `Stream`: a run to the end of the input -/

theorem Advances.trans {c : Nat} {run run1 run2 : Run} {a1 a2 : List Geolocation}
    {d1 d2 : Nat} (h1 : Advances c run run1 a1 d1) (h2 : Advances c run1 run2 a2 d2) :
    Advances c run run2 (a1 ++ a2) (d1 + d2) := by
  obtain ⟨p1, p2, _, f1, p4, p5, p6⟩ := h1
  obtain ⟨q1, q2, q3, f2, q4, q5, q6⟩ := h2
  refine ⟨?_, ?_, q3, f1 ++ f2, ?_, ?_, ?_⟩
  · rw [q1, p1, List.length_append]; omega
  · rw [q2, p2]; omega
  · rw [q4, p4, List.append_assoc]
  · intro b hb
    rcases List.mem_append.1 hb with hb | hb
    · exact p5 b hb
    · exact q5 b hb
  · rw [List.flatten_append, List.append_assoc, q6, ← List.append_assoc, p6, List.append_assoc]

theorem flatten_length_of_full {c : Nat} (full : List (List Geolocation))
    (h : ∀ b ∈ full, b.length = c) : full.flatten.length = c * full.length := by
  induction full with
  | nil => simp
  | cons b t ih =>
    rw [List.flatten_cons, List.length_append, h b (List.mem_cons_self _ _),
      ih (fun x hx => h x (List.mem_cons_of_mem _ hx)), List.length_cons, Nat.mul_succ]
    omega

/-- A row that does not make `loadRecord` panic is classified or rejected, not
both. -/
theorem classified_or_rejected (lib : Lib) (r : ReadResult)
    (h : r.err = none → loadRecord lib (Slice.ofList r.record) {} ≠ .panic) :
    (classified lib r).toList.length + (if rejected lib r then 1 else 0) = 1 := by
  unfold classified rejected
  by_cases he : r.err = none
  · rw [if_pos he, if_pos he]
    have := h he
    cases hl : loadRecord lib (Slice.ofList r.record) {} with
    | panic => exact absurd hl this
    | error msg loc => simp
    | ok loc => simp
  · rw [if_neg he, if_neg he]
    simp

/-- One pass through the loop body on a row that was read: the loop goes on, and
the row is accepted or discarded. -/
theorem iteration_row (lib : Lib) (c : Nat) (w : World) (run : Run)
    (hctx : ∀ k, w.ctxErr k = false) (hsink : ∀ n b, w.Close n b = none)
    (h1 : (w.Read run.iter).err ≠ some .EOF) (h2 : (w.Read run.iter).err ≠ some .ErrFieldCount)
    (h3 : (w.Read run.iter).err = none →
      loadRecord lib (Slice.ofList (w.Read run.iter).record) {} ≠ .panic)
    (hb : run.batch.length < c) :
    ∃ run1, iteration lib ⟨c⟩ w run = .next run1 ∧ run1.iter = run.iter + 1 ∧
      Advances c run run1 (classified lib (w.Read run.iter)).toList
        (if rejected lib (w.Read run.iter) then 1 else 0) := by
  unfold iteration
  rw [hctx]
  simp only [Bool.false_eq_true, if_false, if_neg h1]
  unfold classified rejected
  by_cases he : (w.Read run.iter).err = none
  · have hp := h3 he
    rw [if_neg (by simp [he]), if_pos he, if_pos he]
    cases hl : loadRecord lib (Slice.ofList (w.Read run.iter).record) {} with
    | panic => exact absurd hl hp
    | error msg loc =>
      refine ⟨_, rfl, rfl, ?_, ?_, hb, [], ?_, ?_, ?_⟩ <;> simp
    | ok loc =>
      simp only
      by_cases hfull : ((run.batch ++ [loc]).length : Int) = (c : Int)
      · rw [if_pos hfull]
        have hfull' : run.batch.length + 1 = c := by
          have : (run.batch ++ [loc]).length = c := by exact_mod_cast hfull
          simpa using this
        simp only [flush, hsink]
        refine ⟨_, rfl, rfl, ?_, ?_, ?_, [run.batch ++ [loc]], ?_, ?_, ?_⟩
        · simp
        · simp
        · simp; omega
        · simp
        · intro b hb'
          simp only [List.mem_singleton] at hb'
          rw [hb']
          simp [hfull']
        · simp
      · rw [if_neg hfull]
        have hfull' : run.batch.length + 1 ≠ c := by
          intro h
          apply hfull
          rw [List.length_append]
          simp only [List.length_singleton]
          exact_mod_cast h
        refine ⟨_, rfl, rfl, ?_, ?_, ?_, [], ?_, ?_, ?_⟩
        · simp
        · simp
        · simp; omega
        · simp
        · simp
        · simp
  · rw [if_pos ⟨he, h2⟩, if_neg he, if_neg he]
    refine ⟨_, rfl, rfl, ?_, ?_, hb, [], ?_, ?_, ?_⟩ <;> simp

/-- The loop on the rows `rest` and then the end of the input: it reaches the
statements after the loop, having accepted the classified rows and discarded the
others. -/
theorem streamLoop_rows (lib : Lib) (c : Nat) (w : World)
    (hctx : ∀ k, w.ctxErr k = false) (hsink : ∀ n b, w.Close n b = none)
    (rest : List ReadResult) (run : Run) (fuel : Nat)
    (hread : ∀ j, w.Read (run.iter + j) = (rest[j]?).getD ReadResult.eof)
    (hrows : ∀ r ∈ rest, r.err ≠ some .EOF ∧ r.err ≠ some .ErrFieldCount)
    (hcls : ∀ r ∈ rest, r.err = none → loadRecord lib (Slice.ofList r.record) {} ≠ .panic)
    (hfuel : rest.length < fuel) (hb : run.batch.length < c) :
    ∃ run1, streamLoop lib ⟨c⟩ w fuel run = afterLoop w run1 ∧
      run1.iter = run.iter + rest.length + 1 ∧
      Advances c run run1 (accepted lib rest) (rest.countP (rejected lib)) := by
  induction rest generalizing run fuel with
  | nil =>
    obtain ⟨fuel, rfl⟩ : ∃ f, fuel = f + 1 := ⟨fuel - 1, by simp at hfuel; omega⟩
    have h0 : w.Read run.iter = ReadResult.eof := by simpa using hread 0
    refine ⟨{ run with iter := run.iter + 1 }, ?_, rfl, ?_⟩
    · rw [streamLoop, iteration, hctx]
      simp [h0, ReadResult.eof]
    · refine ⟨by simp [accepted], by simp, hb, [], by simp, by simp, by simp [accepted]⟩
  | cons r rest ih =>
    obtain ⟨fuel, rfl⟩ : ∃ f, fuel = f + 1 := ⟨fuel - 1, by simp at hfuel; omega⟩
    have h0 : w.Read run.iter = r := by simpa using hread 0
    have hr := hrows r (List.mem_cons_self _ _)
    obtain ⟨run1, e1, e2, e3⟩ := iteration_row lib c w run hctx hsink (by rw [h0]; exact hr.1)
      (by rw [h0]; exact hr.2) (by rw [h0]; exact hcls r (List.mem_cons_self _ _)) hb
    rw [h0] at e3
    obtain ⟨run2, f1, f2, f3⟩ := ih run1 fuel
      (by
        intro j
        rw [e2, Nat.add_assoc, Nat.add_comm 1 j, hread (j + 1)]
        simp)
      (fun x hx => hrows x (List.mem_cons_of_mem _ hx))
      (fun x hx => hcls x (List.mem_cons_of_mem _ hx))
      (by simp at hfuel; omega) e3.2.2.1
    refine ⟨run2, ?_, ?_, ?_⟩
    · rw [streamLoop, e1]
      exact f1
    · rw [f2, e2, List.length_cons]; omega
    · have := Advances.trans e3 f3
      have ha : accepted lib (r :: rest) = (classified lib r).toList ++ accepted lib rest := by
        unfold accepted
        rw [List.filterMap_cons]
        cases classified lib r <;> rfl
      have hd : (r :: rest).countP (rejected lib)
          = (if rejected lib r then 1 else 0) + rest.countP (rejected lib) := by
        rw [List.countP_cons]
        omega
      rw [ha, hd]
      exact this

/-- The classified and the rejected rows are all the rows. -/
theorem accepted_add_rejected (lib : Lib) (rows : List ReadResult)
    (hcls : ∀ r ∈ rows, r.err = none → loadRecord lib (Slice.ofList r.record) {} ≠ .panic) :
    (accepted lib rows).length + rows.countP (rejected lib) = rows.length := by
  induction rows with
  | nil => rfl
  | cons r rest ih =>
    have h1 := classified_or_rejected lib r (hcls r (List.mem_cons_self _ _))
    have h2 := ih (fun x hx => hcls x (List.mem_cons_of_mem _ hx))
    have ha : accepted lib (r :: rest) = (classified lib r).toList ++ accepted lib rest := by
      unfold accepted
      rw [List.filterMap_cons]
      cases classified lib r <;> rfl
    rw [ha, List.length_append, List.countP_cons, List.length_cons]
    omega

/-- One pass through the loop body on a row that was read, for any batch size:
the counters. -/
theorem iteration_row_stats (lib : Lib) (i : Importer) (w : World) (run : Run)
    (hctx : ∀ k, w.ctxErr k = false) (hsink : ∀ n b, w.Close n b = none)
    (h1 : (w.Read run.iter).err ≠ some .EOF) (h2 : (w.Read run.iter).err ≠ some .ErrFieldCount)
    (h3 : (w.Read run.iter).err = none →
      loadRecord lib (Slice.ofList (w.Read run.iter).record) {} ≠ .panic) :
    ∃ run1, iteration lib i w run = .next run1 ∧ run1.iter = run.iter + 1 ∧
      run1.stats.Accepted
        = run.stats.Accepted + (classified lib (w.Read run.iter)).toList.length ∧
      run1.stats.Discarded
        = run.stats.Discarded + (if rejected lib (w.Read run.iter) then 1 else 0) := by
  unfold iteration
  rw [hctx]
  simp only [Bool.false_eq_true, if_false, if_neg h1]
  unfold classified rejected
  by_cases he : (w.Read run.iter).err = none
  · have hp := h3 he
    rw [if_neg (by simp [he]), if_pos he, if_pos he]
    cases hl : loadRecord lib (Slice.ofList (w.Read run.iter).record) {} with
    | panic => exact absurd hl hp
    | error msg loc => exact ⟨_, rfl, rfl, by simp, by simp⟩
    | ok loc =>
      simp only
      by_cases hfull : ((run.batch ++ [loc]).length : Int) = i.batchSize
      · rw [if_pos hfull]
        simp only [flush, hsink]
        exact ⟨_, rfl, rfl, by simp, by simp⟩
      · rw [if_neg hfull]
        exact ⟨_, rfl, rfl, by simp, by simp⟩
  · rw [if_pos ⟨he, h2⟩, if_neg he, if_neg he]
    exact ⟨_, rfl, rfl, by simp, by simp⟩

/-- The loop on the rows `rest` and then the end of the input, for any batch
size: the counters and the number of reads. -/
theorem streamLoop_rows_stats (lib : Lib) (i : Importer) (w : World)
    (hctx : ∀ k, w.ctxErr k = false) (hsink : ∀ n b, w.Close n b = none)
    (rest : List ReadResult) (run : Run) (fuel : Nat)
    (hread : ∀ j, w.Read (run.iter + j) = (rest[j]?).getD ReadResult.eof)
    (hrows : ∀ r ∈ rest, r.err ≠ some .EOF ∧ r.err ≠ some .ErrFieldCount)
    (hcls : ∀ r ∈ rest, r.err = none → loadRecord lib (Slice.ofList r.record) {} ≠ .panic)
    (hfuel : rest.length < fuel) :
    ∃ run1, streamLoop lib i w fuel run = afterLoop w run1 ∧
      run1.iter = run.iter + rest.length + 1 ∧
      run1.stats.Accepted = run.stats.Accepted + (accepted lib rest).length ∧
      run1.stats.Discarded = run.stats.Discarded + rest.countP (rejected lib) := by
  induction rest generalizing run fuel with
  | nil =>
    obtain ⟨fuel, rfl⟩ : ∃ f, fuel = f + 1 := ⟨fuel - 1, by simp at hfuel; omega⟩
    have h0 : w.Read run.iter = ReadResult.eof := by simpa using hread 0
    refine ⟨{ run with iter := run.iter + 1 }, ?_, rfl, by simp [accepted], by simp⟩
    rw [streamLoop, iteration, hctx]
    simp [h0, ReadResult.eof]
  | cons r rest ih =>
    obtain ⟨fuel, rfl⟩ : ∃ f, fuel = f + 1 := ⟨fuel - 1, by simp at hfuel; omega⟩
    have h0 : w.Read run.iter = r := by simpa using hread 0
    have hr := hrows r (List.mem_cons_self _ _)
    obtain ⟨run1, e1, e2, e3, e4⟩ := iteration_row_stats lib i w run hctx hsink
      (by rw [h0]; exact hr.1) (by rw [h0]; exact hr.2)
      (by rw [h0]; exact hcls r (List.mem_cons_self _ _))
    rw [h0] at e3 e4
    obtain ⟨run2, f1, f2, f3, f4⟩ := ih run1 fuel
      (by
        intro j
        rw [e2, Nat.add_assoc, Nat.add_comm 1 j, hread (j + 1)]
        simp)
      (fun x hx => hrows x (List.mem_cons_of_mem _ hx))
      (fun x hx => hcls x (List.mem_cons_of_mem _ hx))
      (by simp at hfuel; omega)
    have ha : accepted lib (r :: rest) = (classified lib r).toList ++ accepted lib rest := by
      unfold accepted
      rw [List.filterMap_cons]
      cases classified lib r <;> rfl
    refine ⟨run2, ?_, ?_, ?_, ?_⟩
    · rw [streamLoop, e1]
      exact f1
    · rw [f2, e2, List.length_cons]; omega
    · rw [f3, e3, ha, List.length_append]; omega
    · rw [f4, e4, List.countP_cons]; omega

/-- The statements after the loop, when the sink does not fail: `Stream` returns
nil, with the counters and the number of reads as the loop left them. -/
theorem afterLoop_ok (w : World) (run : Run) (hsink : ∀ n b, w.Close n b = none) :
    ∃ run1, afterLoop w run = .returned run1 none ∧ run1.stats = run.stats ∧
      run1.iter = run.iter ∧
      run1.sent = (if run.batch.length > 0 then run.sent ++ [run.batch] else run.sent) := by
  unfold afterLoop
  by_cases h : run.batch.length > 0
  · rw [if_pos h, if_pos h]
    simp only [flush, hsink]
    exact ⟨_, rfl, rfl, rfl, rfl⟩
  · rw [if_neg h, if_neg h]
    exact ⟨_, rfl, rfl, rfl, rfl⟩

/-- The batches of a run on which no row makes `loadRecord` panic. With a positive
batch size `c`, no cancellation and no sink failure, on an input whose rows are all
classified or rejected, `Stream` returns nil after
`⌈N / c⌉` calls of `SendBatch`, where `N` is the number of accepted records: the
batches sent are, in order, the accepted records in input order; every batch but
the last holds `c` records, and the last holds the `N - c * (⌈N / c⌉ - 1)`
remaining ones, at least 1 and at most `c`. -/
theorem Stream_batches (lib : Lib) (c : Nat) (hc : 0 < c) (w : World)
    (rows : List ReadResult)
    (hctx : ∀ k, w.ctxErr k = false) (hsink : ∀ n b, w.Close n b = none)
    (hread : ∀ k, w.Read k = (rows[k]?).getD ReadResult.eof)
    (hrows : ∀ r ∈ rows, r.err ≠ some .EOF ∧ r.err ≠ some .ErrFieldCount)
    (hcls : ∀ r ∈ rows, r.err = none → loadRecord lib (Slice.ofList r.record) {} ≠ .panic)
    (fuel : Nat) (hfuel : rows.length < fuel) :
    ∃ run, Stream lib ⟨c⟩ w fuel = .returned run none ∧
      run.sent.flatten = accepted lib rows ∧
      run.sent.length = ((accepted lib rows).length + c - 1) / c ∧
      (∀ i b, i + 1 < run.sent.length → run.sent[i]? = some b → b.length = c) ∧
      (∀ b, run.sent.getLast? = some b →
        b.length = (accepted lib rows).length
            - c * (((accepted lib rows).length + c - 1) / c - 1) ∧
          1 ≤ b.length ∧ b.length ≤ c) := by
  obtain ⟨run1, e1, -, -, -, hb, full, s1, s2, s3⟩ := streamLoop_rows lib c w hctx hsink rows {}
    fuel (by intro j; simpa using hread j) hrows hcls hfuel (by simpa using hc)
  obtain ⟨run2, a1, -, -, a4⟩ := afterLoop_ok w run1 hsink
  have s1' : run1.sent = full := by simpa using s1
  have s3' : full.flatten ++ run1.batch = accepted lib rows := by simpa using s3
  have hN : (accepted lib rows).length = c * full.length + run1.batch.length := by
    rw [← s3', List.length_append, flatten_length_of_full full s2]
  refine ⟨run2, by rw [Stream, e1, a1], ?_⟩
  rw [hN, a4, s1']
  by_cases hpos : run1.batch.length > 0
  · rw [if_pos hpos]
    have hdiv : (c * full.length + run1.batch.length + c - 1) / c = full.length + 1 := by
      have : c * full.length + run1.batch.length + c - 1
          = c * full.length + ((run1.batch.length - 1) + c) := by omega
      rw [this, Nat.mul_add_div hc, Nat.add_div_right _ hc,
        Nat.div_eq_of_lt (by omega)]
    rw [hdiv]
    refine ⟨?_, by simp, ?_, ?_⟩
    · rw [List.flatten_append, ← s3']; simp
    · intro i b hi hb'
      simp only [List.length_append, List.length_singleton] at hi
      rw [List.getElem?_append_left (by omega)] at hb'
      exact s2 b (List.getElem?_mem hb')
    · intro b hb'
      rw [List.getLast?_concat] at hb'
      simp only [Option.some.injEq] at hb'
      subst hb'
      refine ⟨?_, hpos, by omega⟩
      simp only [Nat.add_sub_cancel]
      omega
  · rw [if_neg hpos]
    have h0 : run1.batch.length = 0 := by omega
    have hdiv : (c * full.length + run1.batch.length + c - 1) / c = full.length := by
      have : c * full.length + run1.batch.length + c - 1 = c * full.length + (c - 1) := by
        omega
      rw [this, Nat.mul_add_div hc, Nat.div_eq_of_lt (by omega)]
      rfl
    rw [hdiv]
    refine ⟨?_, rfl, ?_, ?_⟩
    · rw [← s3']
      have : run1.batch = [] := List.length_eq_zero.1 h0
      rw [this]; simp
    · intro i b _ hb'
      exact s2 b (List.getElem?_mem hb')
    · intro b hb'
      have hmem : b ∈ full := List.mem_of_getLast?_eq_some hb'
      have hlen := s2 b hmem
      have hfl : 0 < full.length := List.length_pos_of_mem hmem
      obtain ⟨m, hm⟩ : ∃ m, full.length = m + 1 := ⟨full.length - 1, by omega⟩
      rw [hlen, h0, hm, Nat.add_sub_cancel, Nat.mul_succ]
      omega

/-- The batches for the batch size 3 and eleven rows that all classify: four
batches, of 3, 3, 3 and 2 records. -/
theorem Stream_batches_witness :
    ∃ run, Stream sampleLib ⟨3⟩ (World.ofRows elevenRows) 12 = .returned run none ∧
      run.sent.flatten = accepted sampleLib elevenRows ∧
      run.sent.length = 4 ∧
      (∀ i b, i + 1 < run.sent.length → run.sent[i]? = some b → b.length = 3) ∧
      (∀ b, run.sent.getLast? = some b → b.length = 2 ∧ 1 ≤ b.length ∧ b.length ≤ 3) := by
  obtain ⟨run, h1, h2, h3, h4, h5⟩ := Stream_batches sampleLib 3 (by decide)
    (World.ofRows elevenRows) elevenRows (fun _ => rfl) (fun _ _ => rfl) (fun _ => rfl)
    (by decide) (by decide) 12 (by decide)
  have hN : (accepted sampleLib elevenRows).length = 11 := by decide
  rw [hN] at h3 h5
  exact ⟨run, h1, h2, h3, h4, h5⟩

/-- C10. When the input is read to its end with no cancellation and no sink
failure, `Stream` returns nil and statistics in which `Accepted` counts the rows
that decoded and classified, `Discarded` the rows that failed to decode or to
classify, and the two add up to the number of rows; the read that met the end of
the input (read number `rows.length + 1`) is counted in neither. -/
theorem Stream_stats (lib : Lib) (i : Importer) (w : World) (rows : List ReadResult)
    (hctx : ∀ k, w.ctxErr k = false) (hsink : ∀ n b, w.Close n b = none)
    (hread : ∀ k, w.Read k = (rows[k]?).getD ReadResult.eof)
    (hrows : ∀ r ∈ rows, r.err ≠ some .EOF ∧ r.err ≠ some .ErrFieldCount)
    (hcls : ∀ r ∈ rows, r.err = none → loadRecord lib (Slice.ofList r.record) {} ≠ .panic)
    (fuel : Nat) (hfuel : rows.length < fuel) :
    ∃ run, Stream lib i w fuel = .returned run none ∧
      run.stats.Accepted = rows.countP (fun r => (classified lib r).isSome) ∧
      run.stats.Discarded = rows.countP (rejected lib) ∧
      run.stats.Accepted + run.stats.Discarded = rows.length ∧
      run.iter = rows.length + 1 := by
  obtain ⟨run1, e1, e2, e3, e4⟩ := streamLoop_rows_stats lib i w hctx hsink rows {} fuel
    (by intro j; simpa using hread j) hrows hcls hfuel
  obtain ⟨run2, a1, a2, a3, -⟩ := afterLoop_ok w run1 hsink
  have hsum := accepted_add_rejected lib rows hcls
  have hacc : (accepted lib rows).length = rows.countP (fun r => (classified lib r).isSome) := by
    unfold accepted
    clear hsum hcls hrows hread hfuel e2 e3 e4
    induction rows with
    | nil => rfl
    | cons r rest ih =>
      rw [List.filterMap_cons, List.countP_cons]
      cases classified lib r with
      | none => simpa using ih
      | some loc => simpa using ih
  refine ⟨run2, by rw [Stream, e1, a1], ?_, ?_, ?_, ?_⟩
  · rw [a2, e3, ← hacc]; simp
  · rw [a2, e4]; simp
  · rw [a2, e3, e4]; simpa using hsum
  · rw [a3, e2]; simp

/-- C10, for the batch size 3 and eleven rows of which seven classify. -/
theorem Stream_stats_witness :
    ∃ run, Stream sampleLib ⟨3⟩ (World.ofRows mixedRows) 12 = .returned run none ∧
      run.stats.Accepted = 7 ∧ run.stats.Discarded = 4 ∧
      run.stats.Accepted + run.stats.Discarded = 11 ∧ run.iter = 12 := by
  obtain ⟨run, h1, h2, h3, h4, h5⟩ := Stream_stats sampleLib ⟨3⟩ (World.ofRows mixedRows)
    mixedRows (fun _ => rfl) (fun _ _ => rfl) (fun _ => rfl) (by decide) (by decide) 12
    (by decide)
  have hA : mixedRows.countP (fun r => (classified sampleLib r).isSome) = 7 := by decide
  have hD : mixedRows.countP (rejected sampleLib) = 4 := by decide
  rw [hA] at h2
  rw [hD] at h3
  exact ⟨run, h1, h2, h3, h4, h5⟩

/-! ## `Stream`: the first rows of a run -/

/-- One pass through the loop body on a row that was read, when the context is not
cancelled at this pass and the sink takes the batch this row fills, if it fills
one. -/
theorem iteration_row_at (lib : Lib) (c : Nat) (w : World) (run : Run)
    (hctx : w.ctxErr run.iter = false)
    (h1 : (w.Read run.iter).err ≠ some .EOF) (h2 : (w.Read run.iter).err ≠ some .ErrFieldCount)
    (h3 : (w.Read run.iter).err = none →
      loadRecord lib (Slice.ofList (w.Read run.iter).record) {} ≠ .panic)
    (hb : run.batch.length < c)
    (hsink : ∀ loc, classified lib (w.Read run.iter) = some loc → run.batch.length + 1 = c →
      w.Close (run.batchNumber + 1) (run.batch ++ [loc]) = none) :
    ∃ run1, iteration lib ⟨c⟩ w run = .next run1 ∧ run1.iter = run.iter + 1 ∧
      Advances c run run1 (classified lib (w.Read run.iter)).toList
        (if rejected lib (w.Read run.iter) then 1 else 0) ∧
      run1.batchNumber + run.sent.length = run.batchNumber + run1.sent.length := by
  unfold iteration
  rw [hctx]
  simp only [Bool.false_eq_true, if_false, if_neg h1]
  by_cases he : (w.Read run.iter).err = none
  · have hp := h3 he
    rw [if_neg (by simp [he])]
    cases hl : loadRecord lib (Slice.ofList (w.Read run.iter).record) {} with
    | panic => exact absurd hl hp
    | error msg loc =>
      have hcl : classified lib (w.Read run.iter) = none := by
        unfold classified; rw [if_pos he, hl]
      have hrj : rejected lib (w.Read run.iter) = true := by
        unfold rejected; rw [if_pos he, hl]
      rw [hcl, hrj]
      refine ⟨_, rfl, rfl, ⟨?_, ?_, hb, [], ?_, ?_, ?_⟩, rfl⟩ <;> simp
    | ok loc =>
      have hcl : classified lib (w.Read run.iter) = some loc := by
        unfold classified; rw [if_pos he, hl]
      have hrj : rejected lib (w.Read run.iter) = false := by
        unfold rejected; rw [if_pos he, hl]
      rw [hcl, hrj]
      simp only
      by_cases hfull : ((run.batch ++ [loc]).length : Int) = (c : Int)
      · rw [if_pos hfull]
        have hfull' : run.batch.length + 1 = c := by
          have : (run.batch ++ [loc]).length = c := by exact_mod_cast hfull
          simpa using this
        have hs := hsink loc hcl hfull'
        simp only [flush, hs]
        refine ⟨_, rfl, rfl, ⟨?_, ?_, ?_, [run.batch ++ [loc]], ?_, ?_, ?_⟩, ?_⟩
        · simp
        · simp
        · simp; omega
        · simp
        · intro b hb'
          simp only [List.mem_singleton] at hb'
          rw [hb']
          simp [hfull']
        · simp
        · simp; omega
      · rw [if_neg hfull]
        have hfull' : run.batch.length + 1 ≠ c := by
          intro h
          apply hfull
          rw [List.length_append]
          simp only [List.length_singleton]
          exact_mod_cast h
        refine ⟨_, rfl, rfl, ⟨?_, ?_, ?_, [], ?_, ?_, ?_⟩, rfl⟩
        · simp
        · simp
        · simp; omega
        · simp
        · simp
        · simp
  · have hcl : classified lib (w.Read run.iter) = none := by
      unfold classified; rw [if_neg he]
    have hrj : rejected lib (w.Read run.iter) = true := by
      unfold rejected; rw [if_neg he]
    rw [if_pos ⟨he, h2⟩, hcl, hrj]
    refine ⟨_, rfl, rfl, ⟨?_, ?_, hb, [], ?_, ?_, ?_⟩, rfl⟩ <;> simp

/-- The number of full batches in a stretch of the loop. -/
theorem Advances.batches {c : Nat} (hc : 0 < c) {run run1 : Run} {acc : List Geolocation}
    {d : Nat} (h : Advances c run run1 acc d)
    (hn : run1.batchNumber + run.sent.length = run.batchNumber + run1.sent.length) :
    run1.batchNumber = run.batchNumber + (run.batch.length + acc.length) / c ∧
      run1.batch.length = (run.batch.length + acc.length) % c := by
  obtain ⟨-, -, h3, full, h4, h5, h6⟩ := h
  have hlen : c * full.length + run1.batch.length = run.batch.length + acc.length := by
    have := congrArg List.length h6
    rw [List.length_append, List.length_append, flatten_length_of_full full h5] at this
    exact this
  have hs : run1.sent.length = run.sent.length + full.length := by
    rw [h4, List.length_append]
  rw [← hlen]
  constructor
  · rw [Nat.mul_add_div hc, Nat.div_eq_of_lt h3]
    omega
  · rw [Nat.mul_add_mod, Nat.mod_eq_of_lt h3]

/-- The loop over the first rows of an input, while the context is not cancelled
and the sink takes the batches these rows fill: the loop goes on after them, having
accepted the classified rows and discarded the others. -/
theorem streamLoop_prefix (lib : Lib) (c : Nat) (hc : 0 < c) (w : World)
    (rows : List ReadResult) (run : Run) (fuel : Nat)
    (hctx : ∀ j, j < rows.length → w.ctxErr (run.iter + j) = false)
    (hread : ∀ j, j < rows.length → w.Read (run.iter + j) = (rows[j]?).getD ReadResult.eof)
    (hrows : ∀ r ∈ rows, r.err ≠ some .EOF ∧ r.err ≠ some .ErrFieldCount)
    (hcls : ∀ r ∈ rows, r.err = none → loadRecord lib (Slice.ofList r.record) {} ≠ .panic)
    (hsink : ∀ n b, run.batchNumber < n →
      n ≤ run.batchNumber + (run.batch.length + (accepted lib rows).length) / c →
      w.Close n b = none)
    (hb : run.batch.length < c) :
    ∃ run1, streamLoop lib ⟨c⟩ w (rows.length + fuel) run = streamLoop lib ⟨c⟩ w fuel run1 ∧
      run1.iter = run.iter + rows.length ∧
      Advances c run run1 (accepted lib rows) (rows.countP (rejected lib)) ∧
      run1.batchNumber + run.sent.length = run.batchNumber + run1.sent.length := by
  induction rows generalizing run with
  | nil =>
    refine ⟨run, by simp, rfl, ?_, rfl⟩
    exact ⟨by simp [accepted], by simp, hb, [], by simp, by simp, by simp [accepted]⟩
  | cons r rest ih =>
    have h0 : w.Read run.iter = r := by simpa using hread 0 (by simp)
    have hr := hrows r (List.mem_cons_self _ _)
    have ha : accepted lib (r :: rest) = (classified lib r).toList ++ accepted lib rest := by
      unfold accepted
      rw [List.filterMap_cons]
      cases classified lib r <;> rfl
    obtain ⟨run1, e1, e2, e3, e4⟩ := iteration_row_at lib c w run
      (by simpa using hctx 0 (by simp))
      (by rw [h0]; exact hr.1) (by rw [h0]; exact hr.2)
      (by rw [h0]; exact hcls r (List.mem_cons_self _ _)) hb
      (by
        intro loc hcl hfull
        apply hsink _ _ (by omega)
        rw [h0] at hcl
        rw [ha, hcl, List.length_append]
        simp only [Option.toList_some, List.length_singleton]
        have : run.batch.length + (1 + (accepted lib rest).length)
            = (accepted lib rest).length + c := by omega
        rw [this, Nat.add_div_right _ hc]
        exact Nat.add_le_add_left (Nat.succ_le_succ (Nat.zero_le _)) _)
    rw [h0] at e3
    obtain ⟨hn1, hm1⟩ := Advances.batches hc e3 e4
    have hdiv : run1.batchNumber + (run1.batch.length + (accepted lib rest).length) / c
        = run.batchNumber + (run.batch.length + (accepted lib (r :: rest)).length) / c := by
      rw [hn1, hm1, ha, List.length_append, ← Nat.add_assoc run.batch.length]
      generalize run.batch.length + (classified lib r).toList.length = x
      generalize (accepted lib rest).length = y
      have h1 : (x + y) / c = x / c + (x % c + y) / c := by
        conv_lhs => rw [← Nat.div_add_mod x c]
        rw [Nat.add_assoc, Nat.mul_add_div hc]
      omega
    obtain ⟨run2, f1, f2, f3, f4⟩ := ih run1
      (by
        intro j hj
        rw [e2, Nat.add_assoc, Nat.add_comm 1 j]
        exact hctx (j + 1) (by simp; omega))
      (by
        intro j hj
        rw [e2, Nat.add_assoc, Nat.add_comm 1 j, hread (j + 1) (by simp; omega)]
        simp)
      (fun x hx => hrows x (List.mem_cons_of_mem _ hx))
      (fun x hx => hcls x (List.mem_cons_of_mem _ hx))
      (by
        intro n b hn1' hn2
        apply hsink n b (Nat.lt_of_le_of_lt (by rw [hn1]; exact Nat.le_add_right _ _) hn1')
        rw [← hdiv]
        exact hn2)
      e3.2.2.1
    refine ⟨run2, ?_, ?_, ?_, ?_⟩
    · rw [List.length_cons, Nat.add_right_comm, streamLoop, e1]
      exact f1
    · rw [f2, e2, List.length_cons]; omega
    · have hd : (r :: rest).countP (rejected lib)
          = (if rejected lib r then 1 else 0) + rest.countP (rejected lib) := by
        rw [List.countP_cons]
        omega
      rw [ha, hd]
      exact Advances.trans e3 f3
    · omega

/-! ## `Stream`: cancellation -/

/-- C13. When the context is first found cancelled at the top of the loop after the
`k` rows `rows` have been processed (with the batches they fill taken by the sink),
`Stream` makes no further read (`iter` is `k`) and returns the context's own error
with the statistics of those rows. The batches sent are the full batches of the
accepted records, `⌊N / c⌋` of them; the pending batch, shorter than `c`, holds the
remaining accepted records and is not sent. -/
theorem Stream_cancelled (lib : Lib) (c : Nat) (hc : 0 < c) (w : World)
    (rows : List ReadResult)
    (hctx : ∀ j, j < rows.length → w.ctxErr j = false)
    (hcancel : w.ctxErr rows.length = true)
    (hread : ∀ j, j < rows.length → w.Read j = (rows[j]?).getD ReadResult.eof)
    (hrows : ∀ r ∈ rows, r.err ≠ some .EOF ∧ r.err ≠ some .ErrFieldCount)
    (hcls : ∀ r ∈ rows, r.err = none → loadRecord lib (Slice.ofList r.record) {} ≠ .panic)
    (hsink : ∀ n b, n ≤ (accepted lib rows).length / c → w.Close n b = none)
    (fuel : Nat) (hfuel : rows.length < fuel) :
    ∃ run, Stream lib ⟨c⟩ w fuel = .returned run (some .ctx) ∧
      run.iter = rows.length ∧
      run.stats.Accepted = (accepted lib rows).length ∧
      run.stats.Discarded = rows.countP (rejected lib) ∧
      run.sent.flatten ++ run.batch = accepted lib rows ∧
      (∀ b ∈ run.sent, b.length = c) ∧
      run.batch.length < c ∧
      run.sent.length = (accepted lib rows).length / c ∧
      run.batchNumber = run.sent.length := by
  obtain ⟨f, rfl⟩ : ∃ f, fuel = rows.length + (f + 1) := ⟨fuel - rows.length - 1, by omega⟩
  obtain ⟨run1, e1, e2, e3, e4⟩ := streamLoop_prefix lib c hc w rows {} (f + 1)
    (by intro j hj; simpa using hctx j hj) (by intro j hj; simpa using hread j hj) hrows hcls
    (by intro n b _ hn; exact hsink n b (by simpa using hn)) (by simpa using hc)
  have e2' : run1.iter = rows.length := by simpa using e2
  obtain ⟨hn, -⟩ := Advances.batches hc e3 e4
  obtain ⟨a1, a2, a3, full, a4, a5, a6⟩ := e3
  have a4' : run1.sent = full := by simpa using a4
  refine ⟨run1, ?_, e2', by simpa using a1, by simpa using a2, ?_, ?_, a3, ?_, ?_⟩
  · rw [Stream, e1, streamLoop, iteration, e2', hcancel]
    rfl
  · rw [a4']; simpa using a6
  · rw [a4']; exact a5
  · have h1 : run1.batchNumber = run1.sent.length := by simpa using e4
    rw [← h1, hn]
    simp
  · simpa using e4

/-- C13, for ten rows that all classify, a batch size of 6 and a cancellation found
after five rows: five accepted, none discarded, the context's error, no batch sent
and five records left pending. -/
theorem Stream_cancelled_witness :
    ∃ run, Stream sampleLib ⟨6⟩ (World.cancelledAt tenRows 5) 11 = .returned run (some .ctx) ∧
      run.iter = 5 ∧ run.stats.Accepted = 5 ∧ run.stats.Discarded = 0 ∧
      run.sent.length = 0 ∧ run.batch.length = 5 := by
  obtain ⟨run, h1, h2, h3, h4, h5, -, -, h8, -⟩ := Stream_cancelled sampleLib 6 (by decide)
    (World.cancelledAt tenRows 5) (tenRows.take 5) (by decide) (by decide) (by decide)
    (by decide) (by decide) (fun _ _ _ => rfl) 11 (by decide)
  have hN : (accepted sampleLib (tenRows.take 5)).length = 5 := by decide
  have hD : (tenRows.take 5).countP (rejected sampleLib) = 0 := by decide
  have hL : (tenRows.take 5).length = 5 := by decide
  rw [hN] at h3 h8
  rw [hD] at h4
  rw [hL] at h2
  have h9 : run.sent.flatten.length = 0 := by
    have : run.sent = [] := List.length_eq_zero.1 (by rw [h8])
    rw [this]; rfl
  have h10 := congrArg List.length h5
  rw [List.length_append, hN, h9] at h10
  exact ⟨run, h1, h2, h3, h4, by rw [h8], by omega⟩

/-! ## `Stream`: a batch the sink refuses -/

/-- The pass through the loop body on a row that fills the batch, when the sink
refuses that batch: `Stream` returns at once, before `stats.Accepted++`, so the
statistics are those of the rows before this one. -/
theorem iteration_flush_refused (lib : Lib) (c : Nat) (w : World) (run : Run)
    (loc : Geolocation) (e : String)
    (hctx : w.ctxErr run.iter = false)
    (hcl : classified lib (w.Read run.iter) = some loc)
    (hfull : run.batch.length + 1 = c)
    (hfail : w.Close (run.batchNumber + 1) (run.batch ++ [loc]) = some e) :
    iteration lib ⟨c⟩ w run = .stop (.returned
      { run with
        iter := run.iter + 1
        batch := run.batch ++ [loc]
        batchNumber := run.batchNumber + 1
        total := run.total + (run.batch ++ [loc]).length
        sent := run.sent ++ [run.batch ++ [loc]] }
      (some (.batch (run.batchNumber + 1) e))) := by
  have he : (w.Read run.iter).err = none := by
    unfold classified at hcl
    by_contra h
    rw [if_neg h] at hcl
    cases hcl
  have hl : loadRecord lib (Slice.ofList (w.Read run.iter).record) {} = .ok loc := by
    unfold classified at hcl
    rw [if_pos he] at hcl
    cases h : loadRecord lib (Slice.ofList (w.Read run.iter).record) {} with
    | panic => rw [h] at hcl; cases hcl
    | error msg l => rw [h] at hcl; cases hcl
    | ok l => rw [h] at hcl; cases hcl; rfl
  unfold iteration
  rw [hctx]
  simp only [Bool.false_eq_true, if_false]
  rw [if_neg (by simp [he]), if_neg (by simp [he]), hl]
  simp only
  rw [if_pos (by rw [List.length_append]; simp only [List.length_singleton]; exact_mod_cast hfull)]
  simp only [flush, hfail]

/-- C11 (what the code does inside the loop). When the row after the rows `pre`
fills the batch number `k` and the sink refuses that batch, `Stream` returns at
once with an error that carries `k` and the sink's error, and with one read per
row; but `Accepted` counts the records accepted before this row only, `k * c - 1`
of them and not the `k * c` queued, so `Accepted + Discarded` is one less than the
number of rows read. -/
theorem Stream_full_batch_refused (lib : Lib) (c : Nat) (hc : 0 < c) (w : World)
    (pre : List ReadResult) (loc : Geolocation) (k : Nat) (e : String)
    (hctx : ∀ j, j ≤ pre.length → w.ctxErr j = false)
    (hread : ∀ j, j < pre.length → w.Read j = (pre[j]?).getD ReadResult.eof)
    (hrows : ∀ r ∈ pre, r.err ≠ some .EOF ∧ r.err ≠ some .ErrFieldCount)
    (hcls : ∀ r ∈ pre, r.err = none → loadRecord lib (Slice.ofList r.record) {} ≠ .panic)
    (hcl : classified lib (w.Read pre.length) = some loc)
    (hk : (accepted lib pre).length + 1 = k * c)
    (hsink : ∀ n b, n < k → w.Close n b = none)
    (hfail : ∀ b, w.Close k b = some e)
    (fuel : Nat) (hfuel : pre.length < fuel) :
    ∃ run, Stream lib ⟨c⟩ w fuel = .returned run (some (.batch k e)) ∧
      run.iter = pre.length + 1 ∧
      run.sent.length = k ∧
      run.stats.Accepted = (accepted lib pre).length ∧
      run.stats.Discarded = pre.countP (rejected lib) ∧
      run.stats.Accepted + 1 = k * c ∧
      run.stats.Accepted + run.stats.Discarded + 1 = run.iter := by
  obtain ⟨f, rfl⟩ : ∃ f, fuel = pre.length + (f + 1) := ⟨fuel - pre.length - 1, by omega⟩
  have hkpos : 0 < k := by
    rcases Nat.eq_zero_or_pos k with h | h
    · rw [h] at hk; simp at hk
    · exact h
  have hdiv : (accepted lib pre).length / c = k - 1 ∧ (accepted lib pre).length % c = c - 1 := by
    obtain ⟨m, rfl⟩ : ∃ m, k = m + 1 := ⟨k - 1, by omega⟩
    have h1 : (accepted lib pre).length = c * m + (c - 1) := by
      rw [Nat.succ_mul, Nat.mul_comm] at hk
      omega
    rw [h1, Nat.mul_add_div hc, Nat.mul_add_mod, Nat.div_eq_of_lt (by omega),
      Nat.mod_eq_of_lt (by omega)]
    simp
  obtain ⟨run1, e1, e2, e3, e4⟩ := streamLoop_prefix lib c hc w pre {} (f + 1)
    (by intro j hj; simpa using hctx j (by omega)) (by intro j hj; simpa using hread j hj)
    hrows hcls
    (by
      intro n b _ hn
      apply hsink n b
      simp only [List.length_nil, Nat.zero_add] at hn
      rw [hdiv.1] at hn
      omega)
    (by simpa using hc)
  have e2' : run1.iter = pre.length := by simpa using e2
  obtain ⟨hn, hm⟩ := Advances.batches hc e3 e4
  simp only [List.length_nil, Nat.zero_add] at hn hm
  rw [hdiv.1] at hn
  rw [hdiv.2] at hm
  have hsum := accepted_add_rejected lib pre hcls
  obtain ⟨a1, a2, -, -⟩ := e3
  have hs : run1.sent.length = k - 1 := by
    have : run1.batchNumber = run1.sent.length := by simpa using e4
    rw [← this, hn]
  have hstep := iteration_flush_refused lib c w run1 loc e
    (by rw [e2']; exact hctx _ (le_refl _)) (by rw [e2']; exact hcl) (by omega)
    (by
      have : run1.batchNumber + 1 = k := by omega
      rw [this]
      exact hfail _)
  have hnum : run1.batchNumber + 1 = k := by omega
  rw [hnum] at hstep
  refine ⟨{ run1 with
      iter := run1.iter + 1
      batch := run1.batch ++ [loc]
      batchNumber := run1.batchNumber + 1
      total := run1.total + (run1.batch ++ [loc]).length
      sent := run1.sent ++ [run1.batch ++ [loc]] }, ?_, ?_, ?_, ?_, ?_, ?_, ?_⟩
  · rw [Stream, e1, streamLoop, hstep]
    simp only [hnum]
  · simp only; omega
  · simp only [List.length_append, List.length_singleton]; omega
  · simpa using a1
  · simpa using a2
  · simp only; rw [a1]; simpa using hk
  · simp only; rw [a1, a2]
    simp only [e2']
    have h0 : ({} : Run).stats.Accepted = 0 := rfl
    have h1 : ({} : Run).stats.Discarded = 0 := rfl
    omega

/-- C11, for the batch size 3, three rows that classify and a sink that refuses
the first batch: the error names batch 1, three rows were read, and `Accepted` is
2. -/
theorem Stream_full_batch_refused_witness :
    ∃ run, Stream sampleLib ⟨3⟩ (World.refusing elevenRows 1 "refused") 12
        = .returned run (some (.batch 1 "refused")) ∧
      run.iter = 3 ∧ run.sent.length = 1 ∧ run.stats.Accepted = 2 ∧
      run.stats.Discarded = 0 := by
  obtain ⟨run, h1, h2, h3, h4, h5, -, -⟩ := Stream_full_batch_refused sampleLib 3 (by decide)
    (World.refusing elevenRows 1 "refused") (elevenRows.take 2)
    { IPAddress := [0, 0, 0, 0, 0, 0, 0, 0, 0, 0, 255, 255, 10, 0, 0, 3], CountryCode := "TL" }
    1 "refused" (fun _ _ => rfl) (by decide) (by decide) (by decide) (by decide) (by decide)
    (by intro n b hn; simp [World.refusing]; omega) (fun _ => rfl) 12 (by decide)
  have hN : (accepted sampleLib (elevenRows.take 2)).length = 2 := by decide
  have hD : (elevenRows.take 2).countP (rejected sampleLib) = 0 := by decide
  have hL : (elevenRows.take 2).length = 2 := by decide
  rw [hL] at h2
  rw [hN] at h4
  rw [hD] at h5
  exact ⟨run, h1, h2, h3, h4, h5⟩

/-- The last flush, after the end of the input: when the sink refuses it, `Stream`
returns an error that carries the number of that batch and the sink's error, and
here `Accepted` counts every accepted record, those of the refused batch included. -/
theorem Stream_last_batch_refused (lib : Lib) (c : Nat) (hc : 0 < c) (w : World)
    (rows : List ReadResult) (k : Nat) (e : String)
    (hctx : ∀ j, j ≤ rows.length → w.ctxErr j = false)
    (hread : ∀ j, j < rows.length → w.Read j = (rows[j]?).getD ReadResult.eof)
    (heof : (w.Read rows.length).err = some .EOF)
    (hrows : ∀ r ∈ rows, r.err ≠ some .EOF ∧ r.err ≠ some .ErrFieldCount)
    (hcls : ∀ r ∈ rows, r.err = none → loadRecord lib (Slice.ofList r.record) {} ≠ .panic)
    (hrest : (accepted lib rows).length % c ≠ 0)
    (hk : k = (accepted lib rows).length / c + 1)
    (hsink : ∀ n b, n < k → w.Close n b = none)
    (hfail : ∀ b, w.Close k b = some e)
    (fuel : Nat) (hfuel : rows.length < fuel) :
    ∃ run, Stream lib ⟨c⟩ w fuel = .returned run (some (.batch k e)) ∧
      run.iter = rows.length + 1 ∧
      run.sent.length = k ∧
      run.stats.Accepted = (accepted lib rows).length ∧
      run.stats.Discarded = rows.countP (rejected lib) ∧
      run.stats.Accepted + run.stats.Discarded = rows.length := by
  obtain ⟨f, rfl⟩ : ∃ f, fuel = rows.length + (f + 1) := ⟨fuel - rows.length - 1, by omega⟩
  obtain ⟨run1, e1, e2, e3, e4⟩ := streamLoop_prefix lib c hc w rows {} (f + 1)
    (by intro j hj; simpa using hctx j (by omega)) (by intro j hj; simpa using hread j hj)
    hrows hcls
    (by
      intro n b _ hn
      apply hsink n b
      simp only [List.length_nil, Nat.zero_add] at hn
      omega)
    (by simpa using hc)
  have e2' : run1.iter = rows.length := by simpa using e2
  obtain ⟨hn, hm⟩ := Advances.batches hc e3 e4
  simp only [List.length_nil, Nat.zero_add] at hn hm
  have hsum := accepted_add_rejected lib rows hcls
  obtain ⟨a1, a2, -, -⟩ := e3
  have hs : run1.batchNumber = run1.sent.length := by simpa using e4
  have hit : iteration lib ⟨c⟩ w run1 = .leave { run1 with iter := run1.iter + 1 } := by
    unfold iteration
    rw [e2', hctx _ (le_refl _)]
    simp [heof]
  have hpos : run1.batch.length > 0 := by
    rw [hm]; exact Nat.pos_of_ne_zero hrest
  have hnum : run1.batchNumber + 1 = k := by rw [hn, hk]
  refine ⟨{ run1 with
      iter := run1.iter + 1
      batchNumber := run1.batchNumber + 1
      total := run1.total + run1.batch.length
      sent := run1.sent ++ [run1.batch] }, ?_, ?_, ?_, ?_, ?_, ?_⟩
  · rw [Stream, e1, streamLoop, hit]
    simp only [afterLoop]
    rw [if_pos hpos]
    simp only [flush, hnum, hfail]
  · simp only; omega
  · simp only [List.length_append, List.length_singleton]; omega
  · simpa using a1
  · simpa using a2
  · simp only; rw [a1, a2]
    have h0 : ({} : Run).stats.Accepted = 0 := rfl
    have h1 : ({} : Run).stats.Discarded = 0 := rfl
    omega

/-! ## `Stream`: a row on which `loadRecord` panics -/

/-- One pass through the loop body on a row that was read without error and on
which `loadRecord` panics: the panic ends `Stream` there, after the read. -/
theorem iteration_panic (lib : Lib) (i : Importer) (w : World) (run : Run)
    (hctx : w.ctxErr run.iter = false)
    (he : (w.Read run.iter).err = none)
    (hp : loadRecord lib (Slice.ofList (w.Read run.iter).record) {} = .panic) :
    iteration lib i w run = .stop (.panic { run with iter := run.iter + 1 }) := by
  unfold iteration
  rw [hctx]
  simp only [Bool.false_eq_true, if_false]
  rw [if_neg (by simp [he]), if_neg (by simp [he]), hp]

/-- C9 (what the code does). With a positive batch size `c`, no cancellation and no
sink failure, on an input in which the row `bad`, read without error after the rows
`pre`, makes `loadRecord` panic: `Stream` does not return, it panics at that row
after `pre.length + 1` reads. The flush calls made are the `⌊M / c⌋` full batches of
the `M` records accepted from `pre` only; the records pending then and the records
of the rows `post` after `bad`, which count among the classifiable records of the
input, are never flushed. -/
theorem Stream_panics_at_row (lib : Lib) (c : Nat) (hc : 0 < c) (w : World)
    (pre post : List ReadResult) (bad : ReadResult)
    (hctx : ∀ k, w.ctxErr k = false) (hsink : ∀ n b, w.Close n b = none)
    (hread : ∀ k, w.Read k = ((pre ++ bad :: post)[k]?).getD ReadResult.eof)
    (hrows : ∀ r ∈ pre, r.err ≠ some .EOF ∧ r.err ≠ some .ErrFieldCount)
    (hcls : ∀ r ∈ pre, r.err = none → loadRecord lib (Slice.ofList r.record) {} ≠ .panic)
    (hbad : bad.err = none)
    (hpanic : loadRecord lib (Slice.ofList bad.record) {} = .panic)
    (fuel : Nat) (hfuel : pre.length < fuel) :
    ∃ run, Stream lib ⟨c⟩ w fuel = .panic run ∧
      run.iter = pre.length + 1 ∧
      run.sent.length = (accepted lib pre).length / c ∧
      (∀ b ∈ run.sent, b.length = c) ∧
      run.sent.flatten ++ run.batch = accepted lib pre ∧
      accepted lib (pre ++ bad :: post) = accepted lib pre ++ accepted lib post := by
  obtain ⟨f, rfl⟩ : ∃ f, fuel = pre.length + (f + 1) := ⟨fuel - pre.length - 1, by omega⟩
  have hpre : ∀ j, j < pre.length → w.Read j = (pre[j]?).getD ReadResult.eof := by
    intro j hj
    rw [hread j, List.getElem?_append_left hj]
  have hat : w.Read pre.length = bad := by
    rw [hread pre.length, List.getElem?_append_right (le_refl _)]
    simp
  obtain ⟨run1, e1, e2, e3, e4⟩ := streamLoop_prefix lib c hc w pre {} (f + 1)
    (by intro j _; exact hctx _) (by intro j hj; simpa using hpre j hj) hrows hcls
    (by intro n b _ _; exact hsink n b) (by simpa using hc)
  have e2' : run1.iter = pre.length := by simpa using e2
  obtain ⟨hn, -⟩ := Advances.batches hc e3 e4
  obtain ⟨-, -, -, full, a4, a5, a6⟩ := e3
  have a4' : run1.sent = full := by simpa using a4
  have hstep := iteration_panic lib ⟨c⟩ w run1 (hctx _)
    (by rw [e2', hat]; exact hbad) (by rw [e2', hat]; exact hpanic)
  refine ⟨{ run1 with iter := run1.iter + 1 }, ?_, ?_, ?_, ?_, ?_, ?_⟩
  · rw [Stream, e1, streamLoop, hstep]
  · simp only; omega
  · have h1 : run1.batchNumber = run1.sent.length := by simpa using e4
    simp only
    rw [← h1, hn]
    simp
  · simp only; rw [a4']; exact a5
  · simp only; rw [a4']; simpa using a6
  · have hb : classified lib bad = none := by
      unfold classified
      rw [if_pos hbad, hpanic]
    unfold accepted
    rw [List.filterMap_append, List.filterMap_cons, hb]

/-- C9, for the batch size 3 and three rows of which the second makes `loadRecord`
panic: two rows are classifiable, which makes one flush of two records by the
count `⌈2 / 3⌉`, and `Stream` panics at the second read with no flush made. -/
theorem Stream_panics_at_row_witness :
    ∃ run, Stream sampleLib ⟨3⟩ (World.ofRows panicRows) 4 = .panic run ∧
      run.iter = 2 ∧ run.sent.length = 0 ∧
      (accepted sampleLib panicRows).length = 2 := by
  obtain ⟨run, h1, h2, h3, -, -, -⟩ := Stream_panics_at_row sampleLib 3 (by decide)
    (World.ofRows panicRows) [row ["10.0.0.1", "PT"]] [row ["10.0.0.3", "TL"]]
    (row ["1.2.3.4", "5.6.7.8"]) (fun _ => rfl) (fun _ _ => rfl) (fun _ => rfl)
    (by decide) (by decide) rfl (by decide) 4 (by decide)
  have hN : (accepted sampleLib [row ["10.0.0.1", "PT"]]).length = 1 := by decide
  rw [hN] at h3
  exact ⟨run, h1, h2, h3, by decide⟩

/-! ## `Stream`: reads that return an error -/

/-- One pass through the loop body on a read that returns an error other than
`io.EOF` and other than the value `csv.ErrFieldCount` itself: the row is counted as
discarded and the pass ends at the `continue`. -/
theorem iteration_decode_error (lib : Lib) (i : Importer) (w : World) (run : Run)
    (e : ReadErr) (hctx : w.ctxErr run.iter = false)
    (he : (w.Read run.iter).err = some e) (h1 : e ≠ .EOF) (h2 : e ≠ .ErrFieldCount) :
    iteration lib i w run = .next
      { run with
        iter := run.iter + 1
        stats := { run.stats with Discarded := run.stats.Discarded + 1 } } := by
  unfold iteration
  rw [hctx]
  simp only [Bool.false_eq_true, if_false]
  rw [if_neg (by rw [he]; simpa using h1), if_pos ⟨by rw [he]; simp, by rw [he]; simpa using h2⟩]

/-- A stretch of `m` reads that each return an error other than `io.EOF`: each is
counted as discarded, and the loop is at the read after them. -/
theorem streamLoop_decode_errors (lib : Lib) (i : Importer) (w : World) (m fuel : Nat)
    (run : Run)
    (hctx : ∀ j, j < m → w.ctxErr (run.iter + j) = false)
    (herr : ∀ j, j < m → ∃ e, (w.Read (run.iter + j)).err = some e ∧ e ≠ .EOF ∧
      e ≠ .ErrFieldCount) :
    streamLoop lib i w (m + fuel) run = streamLoop lib i w fuel
      { run with
        iter := run.iter + m
        stats := { run.stats with Discarded := run.stats.Discarded + m } } := by
  induction m generalizing run with
  | zero => simp
  | succ m ih =>
    obtain ⟨e, he, h1, h2⟩ := herr 0 (by omega)
    have hstep := iteration_decode_error lib i w run e (by simpa using hctx 0 (by omega))
      (by simpa using he) h1 h2
    rw [Nat.succ_add, streamLoop, hstep]
    simp only
    rw [ih]
    · congr 1
      simp only [Run.mk.injEq, ImportStats.mk.injEq, true_and, and_true]
      constructor <;> omega
    · intro j hj
      have := hctx (j + 1) (by omega)
      simpa [Nat.add_assoc, Nat.add_comm 1 j] using this
    · intro j hj
      have := herr (j + 1) (by omega)
      simpa [Nat.add_assoc, Nat.add_comm 1 j] using this

/-- C12 (amended). A read for which the row reader returns a decode error other
than a wrong field count (a malformed row) does not end the read loop and is not
returned to the caller: the row is counted as discarded, nothing else changes, and
the loop continues with the next read. -/
theorem streamLoop_malformed_row (lib : Lib) (i : Importer) (w : World) (fuel : Nat)
    (run : Run)
    (hctx : w.ctxErr run.iter = false)
    (he : (w.Read run.iter).err = some (.ParseError false)) :
    streamLoop lib i w (fuel + 1) run = streamLoop lib i w fuel
      { run with
        iter := run.iter + 1
        stats := { run.stats with Discarded := run.stats.Discarded + 1 } } := by
  rw [streamLoop, iteration_decode_error lib i w run (.ParseError false) hctx he
    (by decide) (by decide)]

/-- C12 (amended), at the malformed second row of a three-row input, after the
first row was accepted: the loop goes on to the third row with one row discarded. -/
theorem streamLoop_malformed_row_witness :
    streamLoop sampleLib ⟨3⟩ (World.ofRows decodeErrorRows) (2 + 1)
        { iter := 1
          stats := { Accepted := 1, Discarded := 0 }
          batch := [{ IPAddress := [0, 0, 0, 0, 0, 0, 0, 0, 0, 0, 255, 255, 1, 2, 3, 4],
                      CountryCode := "PT" }] } =
      streamLoop sampleLib ⟨3⟩ (World.ofRows decodeErrorRows) 2
        { iter := 1 + 1
          stats := { Accepted := 1, Discarded := 0 + 1 }
          batch := [{ IPAddress := [0, 0, 0, 0, 0, 0, 0, 0, 0, 0, 255, 255, 1, 2, 3, 4],
                      CountryCode := "PT" }] } :=
  streamLoop_malformed_row sampleLib ⟨3⟩ (World.ofRows decodeErrorRows) 2
    { iter := 1
      stats := { Accepted := 1, Discarded := 0 }
      batch := [{ IPAddress := [0, 0, 0, 0, 0, 0, 0, 0, 0, 0, 255, 255, 1, 2, 3, 4],
                  CountryCode := "PT" }] } rfl rfl

/-- C12 (as stated, refuted). On an input of three rows whose second row is
malformed (not for its field count), the loop does not end at the malformed row and
no error is returned: the third row is read and accepted, the end of the input is
met at the fourth read, the two accepted records are flushed in one batch, and
`Stream` returns nil with `Accepted` 2 and `Discarded` 1. -/
theorem Stream_decode_error_not_fatal :
    ∃ run, Stream sampleLib ⟨3⟩ (World.ofRows decodeErrorRows) 4 = .returned run none ∧
      run.iter = 4 ∧ run.stats.Accepted = 2 ∧ run.stats.Discarded = 1 ∧
      run.sent.map List.length = [2] :=
  ⟨{ stats := { Accepted := 2, Discarded := 1 }
     batch := [{ IPAddress := [0, 0, 0, 0, 0, 0, 0, 0, 0, 0, 255, 255, 1, 2, 3, 4],
                 CountryCode := "PT" },
               { IPAddress := [0, 0, 0, 0, 0, 0, 0, 0, 0, 0, 255, 255, 10, 0, 0, 3],
                 CountryCode := "TL" }]
     batchNumber := 1
     total := 2
     iter := 4
     sent := [[{ IPAddress := [0, 0, 0, 0, 0, 0, 0, 0, 0, 0, 255, 255, 1, 2, 3, 4],
                 CountryCode := "PT" },
               { IPAddress := [0, 0, 0, 0, 0, 0, 0, 0, 0, 0, 255, 255, 10, 0, 0, 3],
                 CountryCode := "TL" }]] },
   by decide, rfl, rfl, rfl, rfl⟩

/-- With a reader that returns the same error at every call the loop does not
terminate: whatever the number of iterations allowed, it is still running after
them, having discarded one row per iteration. -/
theorem Stream_broken_reader (lib : Lib) (i : Importer) (fuel : Nat) :
    Stream lib i World.brokenReader fuel
      = .outOfFuel { iter := fuel, stats := { Accepted := 0, Discarded := fuel } } := by
  have h := streamLoop_decode_errors lib i World.brokenReader fuel 0 {} (fun _ _ => rfl)
    (fun _ _ => ⟨.other, rfl, by decide, by decide⟩)
  rw [Stream]
  rw [Nat.add_zero] at h
  rw [h]
  simp [streamLoop]

/-! ## `loadRecord` and the classifier of the specification -/

theorem Spec.removeIP_single (lib : Lib) (pre post : List String) (f : String) (ip : List Nat)
    (hf : lib.ParseIP f = some ip) (hpre : ∀ x ∈ pre, lib.ParseIP x = none) :
    Spec.removeIP lib (pre ++ f :: post) = some (ip, pre ++ post) := by
  induction pre with
  | nil => simp [Spec.removeIP, hf]
  | cons a t ih =>
    have ha := hpre a (List.mem_cons_self _ _)
    have := ih (fun x hx => hpre x (List.mem_cons_of_mem _ hx))
    simp [Spec.removeIP, ha, this]

/-- The latitude of the specification is the test of the code on every text that
does not parse to NaN. -/
theorem Spec.isLatitude_eq (lib : Lib) (a : String) (h : lib.ParseFloat a ≠ some .nan) :
    Spec.isLatitude lib a = !latRejected lib a := by
  unfold Spec.isLatitude latRejected
  cases hp : lib.ParseFloat a with
  | none => rfl
  | some x =>
    cases x with
    | nan => exact absurd hp h
    | inf b => cases b <;> simp [Float64.lt]
    | fin q =>
      simp only [Float64.lt]
      by_cases h0 : a = "0" <;> by_cases h1 : -90 ≤ q <;> by_cases h2 : q ≤ 90 <;>
        first | simp [h0, h1, h2]; done | (simp [h0, h1, h2]; exact not_le.1 h2)

/-- The longitude of the specification is the test of the code on every text that
does not parse to NaN. -/
theorem Spec.isLongitude_eq (lib : Lib) (b : String) (h : lib.ParseFloat b ≠ some .nan) :
    Spec.isLongitude lib b = !lonRejected lib b := by
  unfold Spec.isLongitude lonRejected
  cases hp : lib.ParseFloat b with
  | none => rfl
  | some x =>
    cases x with
    | nan => exact absurd hp h
    | inf b => cases b <;> simp [Float64.lt]
    | fin q =>
      simp only [Float64.lt]
      by_cases h0 : b = "0" <;> by_cases h1 : -180 ≤ q <;> by_cases h2 : q ≤ 180 <;>
        first | simp [h0, h1, h2]; done | (simp [h0, h1, h2]; exact not_le.1 h2)

/-- The shape of the specification is the test of the code on every text that has
two characters exactly when it has two bytes. -/
theorem Spec.isCode_eq (lib : Lib) (s : String)
    (h : s.length = 2 ↔ s.utf8ByteSize = 2) :
    Spec.isCode lib s = isCountryCode lib s := by
  unfold Spec.isCode isCountryCode
  by_cases h2 : s.utf8ByteSize = 2
  · rw [if_neg (by simpa using h2)]
    simp [h.2 h2]
  · rw [if_pos (by simpa using h2)]
    have : ¬ s.length = 2 := fun h' => h2 (h.1 h')
    simp [this]

/-- Step 2 of the specification finds what the second loop finds, on fields for
which the two tests of the specification are those of the code. -/
theorem Spec.removeCoordinates_eq (lib : Lib) (l : List String)
    (h : ∀ x ∈ l, Spec.isLatitude lib x = (!latRejected lib x) ∧
      Spec.isLongitude lib x = (!lonRejected lib x)) :
    Spec.removeCoordinates lib l = splitCoordinates lib l := by
  induction l with
  | nil => rfl
  | cons a t ih =>
    cases t with
    | nil => rfl
    | cons b t =>
      rw [Spec.removeCoordinates, splitCoordinates,
        ih (fun x hx => h x (List.mem_cons_of_mem _ hx)),
        (h a (List.mem_cons_self _ _)).1,
        (h b (List.mem_cons_of_mem _ (List.mem_cons_self _ _))).2]

/-- Step 3 of the specification finds what the third loop finds, on fields for
which the shape of the specification is the test of the code. -/
theorem Spec.removeCode_eq (lib : Lib) (l : List String)
    (h : ∀ x ∈ l, Spec.isCode lib x = isCountryCode lib x) :
    Spec.removeCode lib l = splitCountryCode lib l := by
  induction l with
  | nil => rfl
  | cons a t ih =>
    rw [Spec.removeCode, splitCountryCode, ih (fun x hx => h x (List.mem_cons_of_mem _ hx)),
      h a (List.mem_cons_self _ _)]

/-- The fields left after the coordinates are fields of the list. -/
theorem splitCoordinates_subset (lib : Lib) (l : List String) (a b : String)
    (r : List String) (h : splitCoordinates lib l = some (a, b, r)) : ∀ x ∈ r, x ∈ l := by
  obtain ⟨pre, post, e1, e2, -⟩ := splitCoordinates_some lib l a b r h
  intro x hx
  rw [e2] at hx
  rw [e1]
  rcases List.mem_append.1 hx with hx | hx
  · exact List.mem_append_left _ hx
  · exact List.mem_append_right _ (List.mem_cons_of_mem _ (List.mem_cons_of_mem _ hx))

/-- `fillRest`, field by field, from an address alone. -/
theorem fillRest_eq (lib : Lib) (l : List String) (ip : List Nat) :
    fillRest lib l { IPAddress := ip } =
      { IPAddress := ip
        CountryCode := match splitCountryCode lib (match splitCoordinates lib l with
            | some x => x.2.2
            | none => l) with
          | some x => x.1
          | none => ""
        Country := (match splitCountryCode lib (match splitCoordinates lib l with
            | some x => x.2.2
            | none => l) with
          | some x => x.2
          | none => (match splitCoordinates lib l with
            | some x => x.2.2
            | none => l)).getD 0 ""
        City := (match splitCountryCode lib (match splitCoordinates lib l with
            | some x => x.2.2
            | none => l) with
          | some x => x.2
          | none => (match splitCoordinates lib l with
            | some x => x.2.2
            | none => l)).getD 1 ""
        Latitude := match splitCoordinates lib l with
          | some x => x.1
          | none => ""
        Longitude := match splitCoordinates lib l with
          | some x => x.2.1
          | none => "" } := by
  unfold fillRest
  simp only
  cases splitCoordinates lib l with
  | none =>
    simp only
    cases splitCountryCode lib l with
    | none =>
      simp only
      cases l with
      | nil => rfl
      | cons c t => cases t <;> rfl
    | some y =>
      simp only
      cases h : y.2 with
      | nil => rfl
      | cons c t => cases t <;> rfl
  | some x =>
    simp only
    cases splitCountryCode lib x.2.2 with
    | none =>
      simp only
      cases h : x.2.2 with
      | nil => rfl
      | cons c t => cases t <;> rfl
    | some y =>
      simp only
      cases h : y.2 with
      | nil => rfl
      | cons c t => cases t <;> rfl

/-- The classifier of the specification on a row with one field that parses as an
IP address, when its tests are those of the code on the other fields: the record is
`fillRest` of the other fields. -/
theorem Spec.classify_single (lib : Lib) (pre post : List String) (f : String) (ip : List Nat)
    (hf : lib.ParseIP f = some ip) (hpre : ∀ x ∈ pre, lib.ParseIP x = none)
    (htests : ∀ x ∈ pre ++ post, Spec.isLatitude lib x = (!latRejected lib x) ∧
      Spec.isLongitude lib x = (!lonRejected lib x) ∧
      Spec.isCode lib x = isCountryCode lib x) :
    Spec.classify lib (pre ++ f :: post) =
      if noUsefulData (fillRest lib (pre ++ post) { IPAddress := ip }) then .noUsefulData
      else .record (fillRest lib (pre ++ post) { IPAddress := ip }) := by
  have hc : Spec.removeCoordinates lib (pre ++ post) = splitCoordinates lib (pre ++ post) :=
    Spec.removeCoordinates_eq lib _ (fun x hx => ⟨(htests x hx).1, (htests x hx).2.1⟩)
  have hd : Spec.removeCode lib (match splitCoordinates lib (pre ++ post) with
        | some x => x.2.2
        | none => pre ++ post)
      = splitCountryCode lib (match splitCoordinates lib (pre ++ post) with
        | some x => x.2.2
        | none => pre ++ post) := by
    apply Spec.removeCode_eq
    intro x hx
    cases hs : splitCoordinates lib (pre ++ post) with
    | none =>
      rw [hs] at hx
      exact (htests x hx).2.2
    | some y =>
      obtain ⟨a, b, r⟩ := y
      rw [hs] at hx
      exact (htests x (splitCoordinates_subset lib _ a b r hs x hx)).2.2
  unfold Spec.classify
  rw [Spec.removeIP_single lib pre post f ip hf hpre]
  simp only
  rw [hc, hd, fillRest_eq]
  simp only [noUsefulData, Bool.and_eq_true, decide_eq_true_eq, and_assoc]

/-- `loadRecord` is the classifier of the specification on every row with exactly
one field that parses as an IP address, when the tests of the specification are
those of the code on the other fields. -/
theorem loadRecord_refines_of_tests (lib : Lib) (pre post : List String) (f : String)
    (ip : List Nat) (hf : lib.ParseIP f = some ip)
    (hpre : ∀ x ∈ pre, lib.ParseIP x = none) (hpost : ∀ x ∈ post, lib.ParseIP x = none)
    (htests : ∀ x ∈ pre ++ post, Spec.isLatitude lib x = (!latRejected lib x) ∧
      Spec.isLongitude lib x = (!lonRejected lib x) ∧
      Spec.isCode lib x = isCountryCode lib x) :
    (loadRecord lib (Slice.ofList (pre ++ f :: post)) {}).outcome
      = some (Spec.classify lib (pre ++ f :: post)) := by
  rw [loadRecord_single lib pre post f ip hf hpre hpost,
    Spec.classify_single lib pre post f ip hf hpre htests]
  split
  · rw [LoadResult.outcome, if_neg (by decide)]
  · rfl

/-- `loadRecord`, which removes fields in place from the buffer it ranges over, is
the classifier of the specification on every row with exactly one field that
parses as an IP address, none of whose other fields parses to NaN or has two bytes
without having two characters (or two characters without having two bytes). -/
theorem loadRecord_refines (lib : Lib) (pre post : List String) (f : String)
    (ip : List Nat) (hf : lib.ParseIP f = some ip)
    (hpre : ∀ x ∈ pre, lib.ParseIP x = none) (hpost : ∀ x ∈ post, lib.ParseIP x = none)
    (hnan : ∀ x ∈ pre ++ post, lib.ParseFloat x ≠ some .nan)
    (hbytes : ∀ x ∈ pre ++ post, x.length = 2 ↔ x.utf8ByteSize = 2) :
    (loadRecord lib (Slice.ofList (pre ++ f :: post)) {}).outcome
      = some (Spec.classify lib (pre ++ f :: post)) :=
  loadRecord_refines_of_tests lib pre post f ip hf hpre hpost
    (fun x hx => ⟨Spec.isLatitude_eq lib x (hnan x hx), Spec.isLongitude_eq lib x (hnan x hx),
      Spec.isCode_eq lib x (hbytes x hx)⟩)

/-- C14 (what the code does). The row `1.2.3.4, NaN, NaN` has exactly one field
that parses as an IP address. `loadRecord` takes `NaN, NaN` as the coordinates,
since every comparison with NaN is false; the classifier of the specification,
for which a coordinate is a real number in range, takes them as the country and
the city. -/
theorem loadRecord_differs_from_spec (lib : Lib) (ip : List Nat)
    (h1 : lib.ParseIP "1.2.3.4" = some ip) (h2 : lib.ParseIP "NaN" = none)
    (hf : lib.ParseFloat "NaN" = some .nan) :
    (loadRecord lib (Slice.ofList ["1.2.3.4", "NaN", "NaN"]) {}).outcome
        = some (.record { IPAddress := ip, Latitude := "NaN", Longitude := "NaN" }) ∧
      Spec.classify lib ["1.2.3.4", "NaN", "NaN"]
        = .record { IPAddress := ip, Country := "NaN", City := "NaN" } := by
  have hlen := lib.ParseIP_len _ _ h1
  have hne : ip ≠ [] := by intro h; rw [h] at hlen; cases hlen
  constructor
  · simp [loadRecord, Slice.ofList, ipLoop, Slice.cut, h1, h2, afterIP, coordLoop,
      Slice.index, latRejected, lonRejected, hf, Float64.lt, ccLoop, countryCity, noUsefulData,
      hne, LoadResult.outcome]
  · have hc : Spec.isCode lib "NaN" = false := by
      unfold Spec.isCode
      have : ¬ ("NaN".length = 2) := by decide
      simp [this]
    simp [Spec.classify, Spec.removeIP, h1, Spec.removeCoordinates, Spec.isLatitude, hf,
      Spec.removeCode, hc]

/-- C14, with the concrete library. -/
theorem loadRecord_differs_from_spec_witness :
    (loadRecord sampleLib (Slice.ofList ["1.2.3.4", "NaN", "NaN"]) {}).outcome
        = some (.record { IPAddress := [0, 0, 0, 0, 0, 0, 0, 0, 0, 0, 255, 255, 1, 2, 3, 4],
                          Latitude := "NaN", Longitude := "NaN" }) ∧
      Spec.classify sampleLib ["1.2.3.4", "NaN", "NaN"]
        = .record { IPAddress := [0, 0, 0, 0, 0, 0, 0, 0, 0, 0, 255, 255, 1, 2, 3, 4],
                    Country := "NaN", City := "NaN" } :=
  loadRecord_differs_from_spec sampleLib [0, 0, 0, 0, 0, 0, 0, 0, 0, 0, 255, 255, 1, 2, 3, 4]
    (by decide) (by decide) (by rfl)

end Vio
